import Mathlib

/-!
# lil-fast: the canvas compositing core of `CanvasDrawingApp.jsx`

A shallow embedding of the drawing component of
`src/components/CanvasDrawingApp.jsx`: the visible canvas (`canvasRef.current`),
the off-screen stroke canvas (`drawingCanvas`), the optional background image
(`uploadedImage`), the pointer handlers (`startDrawing`, `draw`, `stopDrawing`),
the clear handlers and `composite`.

Modelling conventions.

* A canvas is its dimensions, the drawing state of its 2D context and a total
  pixel function; only pixels with `x < width` and `y < height` belong to the
  bitmap, and every operation leaves the others alone.
* The browser's rendering backend (alpha blending, stroke rasterisation, image
  resampling) is not part of the repository.  It is a parameter, `Renderer`,
  constrained only by the two blending laws every backend obeys; `refRenderer`
  is one executable instance, used for concrete evaluations.  Where a
  statement needs more of the rasteriser it says so: `Renderer.CoversBody`
  asks that a stroke covers the pixels inside the body of each of its
  segments.
* The placement arithmetic of `composite` is carried out in `ℚ` (exact
  arithmetic); `placementDouble` is the same computation with every operation
  rounded to binary64, as JavaScript numbers are.
* React state is a record of the values of the last render, which is what
  the handlers (closures of that render) read, together with the updates
  queued by `setState` calls since then.  A handler (`handle`) only queues;
  the next render (`commit`) installs the queued values and runs the
  `useEffect` that calls `composite` when `uploadedImage` changed.  `dispatch`
  is a handler followed at once by that render; `Reachable` lets renders come
  at any time, also after several handlers.
* State unrelated to drawing (`prompt`, `numIterations`, `generatedImage`) and
  `sendToServer` are left out: no handler modelled here reads or writes them.
-/

namespace LilFast

/-! ## Pixels and the rendering backend -/

/-- An RGBA pixel, each channel in `0..255`; also the value of a CSS colour. -/
structure Pixel where
  r : Nat
  g : Nat
  b : Nat
  a : Nat
deriving DecidableEq, Repr

/-- Transparent black, the content of a freshly created or cleared bitmap. -/
def Pixel.transparent : Pixel := ⟨0, 0, 0, 0⟩

/-- The CSS colour `"white"`. -/
def Pixel.white : Pixel := ⟨255, 255, 255, 255⟩

/-- The CSS colour `"#000000"`, default of `fillStyle` and `strokeStyle`. -/
def Pixel.black : Pixel := ⟨0, 0, 0, 255⟩

/-- A value of `<input type="color">`: a colour `#rrggbb` without alpha. -/
structure Color where
  r : Nat
  g : Nat
  b : Nat
deriving DecidableEq, Repr

/-- The colour as a fully covering pixel. -/
def Color.toPixel (c : Color) : Pixel := ⟨c.r, c.g, c.b, 255⟩

/-- A point of a path, in canvas coordinates. -/
structure Point where
  x : Int
  y : Int
deriving DecidableEq, Repr

/-- Values of `lineCap`. -/
inductive LineCap where
  | butt
  | round
  | square
deriving DecidableEq, Repr

/-- Values of `lineJoin`. -/
inductive LineJoin where
  | miter
  | round
  | bevel
deriving DecidableEq, Repr

/-- A decoded image: its pixel dimensions and its pixels. -/
structure Image where
  width : Nat
  height : Nat
  px : Nat → Nat → Pixel

/-- The browser's 2D rendering backend.  `over src dst` is source-over
blending; `strokeCoverage path lineWidth cap join x y` is the coverage
(`0..255`) of pixel `(x, y)` by the stroke of `path`; `resample img dx dy dw dh`
is the image scaled into the destination rectangle, transparent outside it. -/
structure Renderer where
  over : Pixel → Pixel → Pixel
  over_solid : ∀ src dst : Pixel, src.a = 255 → over src dst = src
  over_clear : ∀ src dst : Pixel, src.a = 0 → over src dst = dst
  strokeCoverage : List (List Point) → Nat → LineCap → LineJoin → Nat → Nat → Nat
  resample : Image → ℚ → ℚ → ℚ → ℚ → Nat → Nat → Pixel

/-! ## The 2D context and the canvas element -/

/-- The drawing state of a `CanvasRenderingContext2D` that the component uses,
with the current default path as a list of subpaths. -/
structure Context2D where
  fillStyle : Pixel
  strokeStyle : Pixel
  lineWidth : Nat
  lineCap : LineCap
  lineJoin : LineJoin
  path : List (List Point)

/-- The state of a freshly created context. -/
def Context2D.default : Context2D :=
  { fillStyle := Pixel.black
    strokeStyle := Pixel.black
    lineWidth := 1
    lineCap := LineCap.butt
    lineJoin := LineJoin.miter
    path := [] }

/-- A canvas element together with its 2D context and bitmap. -/
structure Canvas where
  width : Nat
  height : Nat
  ctx : Context2D
  px : Nat → Nat → Pixel

namespace Canvas

/-- A canvas of the given size: default context state, transparent bitmap. -/
def create (width height : Nat) : Canvas :=
  { width := width
    height := height
    ctx := Context2D.default
    px := fun _ _ => Pixel.transparent }

/-- Assignment to `canvas.width`: resets the context and clears the bitmap. -/
def setWidth (c : Canvas) (width : Nat) : Canvas :=
  create width c.height

/-- Assignment to `canvas.height`: resets the context and clears the bitmap. -/
def setHeight (c : Canvas) (height : Nat) : Canvas :=
  create c.width height

/-- Assignment to `context.fillStyle` of a colour. -/
def setFillStyle (c : Canvas) (style : Pixel) : Canvas :=
  { c with ctx := { c.ctx with fillStyle := style } }

/-- Assignment to `context.strokeStyle` of a colour. -/
def setStrokeStyle (c : Canvas) (style : Pixel) : Canvas :=
  { c with ctx := { c.ctx with strokeStyle := style } }

/-- Assignment to `context.lineWidth`; the platform ignores a value that is
not positive. -/
def setLineWidth (c : Canvas) (lineWidth : Nat) : Canvas :=
  if 0 < lineWidth then { c with ctx := { c.ctx with lineWidth := lineWidth } } else c

/-- Assignment to `context.lineCap`. -/
def setLineCap (c : Canvas) (cap : LineCap) : Canvas :=
  { c with ctx := { c.ctx with lineCap := cap } }

/-- The call `context.beginPath()`: empties the current path. -/
def beginPath (c : Canvas) : Canvas :=
  { c with ctx := { c.ctx with path := [] } }

/-- The call `context.moveTo(x, y)`: starts a new subpath at the point. -/
def moveTo (c : Canvas) (x y : Int) : Canvas :=
  { c with ctx := { c.ctx with path := c.ctx.path ++ [[⟨x, y⟩]] } }

/-- Appends a point to the last subpath of a path; on a path without
subpaths it starts one at the point. -/
def extendPath : List (List Point) → Point → List (List Point)
  | [], p => [[p]]
  | [sub], p => [sub ++ [p]]
  | sub :: rest, p => sub :: extendPath rest p

/-- The call `context.lineTo(x, y)`: connects the last point of the current
subpath to the point. -/
def lineTo (c : Canvas) (x y : Int) : Canvas :=
  { c with ctx := { c.ctx with path := extendPath c.ctx.path ⟨x, y⟩ } }

/-- Blends a layer onto the bitmap, pixel by pixel. -/
def paint (R : Renderer) (c : Canvas) (layer : Nat → Nat → Pixel) : Canvas :=
  { c with px := fun i j =>
      if i < c.width ∧ j < c.height then R.over (layer i j) (c.px i j) else c.px i j }

/-- The call `context.fillRect(x, y, w, h)` with the context's `fillStyle`. -/
def fillRect (R : Renderer) (c : Canvas) (x y w h : Nat) : Canvas :=
  c.paint R (fun i j =>
    if x ≤ i ∧ i < x + w ∧ y ≤ j ∧ j < y + h then c.ctx.fillStyle else Pixel.transparent)

/-- The call `context.clearRect(x, y, w, h)`: the rectangle becomes transparent
black. -/
def clearRect (c : Canvas) (x y w h : Nat) : Canvas :=
  { c with px := fun i j =>
      if (i < c.width ∧ j < c.height) ∧ x ≤ i ∧ i < x + w ∧ y ≤ j ∧ j < y + h
      then Pixel.transparent else c.px i j }

/-- The pixel a stroke in colour `style` contributes where its coverage is
`coverage`: the colour with its alpha scaled by the coverage. -/
def strokeSource (style : Pixel) (coverage : Nat) : Pixel :=
  { style with a := style.a * min coverage 255 / 255 }

/-- The call `context.stroke()`: paints the current path with `strokeStyle`,
`lineWidth`, `lineCap` and `lineJoin`.  The whole current path is painted. -/
def stroke (R : Renderer) (c : Canvas) : Canvas :=
  c.paint R (fun i j =>
    strokeSource c.ctx.strokeStyle
      (R.strokeCoverage c.ctx.path c.ctx.lineWidth c.ctx.lineCap c.ctx.lineJoin i j))

/-- The call `context.drawImage(image, dx, dy, dw, dh)` with an image element;
an image without pixels draws nothing. -/
def drawImage (R : Renderer) (c : Canvas) (image : Image) (dx dy dw dh : ℚ) : Canvas :=
  if image.width = 0 ∨ image.height = 0 then c
  else c.paint R (R.resample image dx dy dw dh)

/-- The call `context.drawImage(source, dx, dy)` with a canvas as source: the
source bitmap at its own size, its top left corner at `(dx, dy)`. -/
def drawCanvas (R : Renderer) (c : Canvas) (source : Canvas) (dx dy : Nat) : Canvas :=
  c.paint R (fun i j =>
    if dx ≤ i ∧ i < dx + source.width ∧ dy ≤ j ∧ j < dy + source.height
    then source.px (i - dx) (j - dy) else Pixel.transparent)

end Canvas

/-! ## Component state -/

/-- The part of `getBoundingClientRect()` that the handlers read. -/
structure DOMRect where
  left : Int
  top : Int
deriving DecidableEq, Repr

/-- The part of a mouse event that the handlers read. -/
structure MouseEvent where
  clientX : Int
  clientY : Int
deriving DecidableEq, Repr

/-- The updates queued by `setIsDrawing`, `setColor`, `setBrushSize` and
`setUploadedImage` since the last render; a later call replaces an earlier
one. -/
structure Pending where
  isDrawing : Option Bool
  color : Option Color
  brushSize : Option Nat
  uploadedImage : Option (Option Image)

/-- No update is queued. -/
def Pending.empty : Pending :=
  { isDrawing := none, color := none, brushSize := none, uploadedImage := none }

/-- The state of `CanvasDrawingApp`: the two refs, the `useState` cells that
the drawing handlers use, with the values of the last render (the values the
handlers close over), and the updates queued since. -/
structure State where
  canvas : Canvas
  fileInputValue : String
  drawingCanvas : Option Canvas
  color : Color
  brushSize : Nat
  isDrawing : Bool
  uploadedImage : Option Image
  pending : Pending

/-- The rectangle `composite` passes to `drawImage` for the background. -/
structure DrawRect where
  drawX : ℚ
  drawY : ℚ
  drawWidth : ℚ
  drawHeight : ℚ
deriving DecidableEq

/-- The placement computed in `composite` (source lines 110 to 128), in
exact arithmetic. -/
def placement (canvasWidth canvasHeight imgWidth imgHeight : Nat) : DrawRect :=
  let imgAspectRatio : ℚ := (imgWidth : ℚ) / (imgHeight : ℚ)
  let canvasAspectRatio : ℚ := (canvasWidth : ℚ) / (canvasHeight : ℚ)
  let drawWidth : ℚ :=
    if imgAspectRatio > canvasAspectRatio then (canvasWidth : ℚ)
    else (canvasHeight : ℚ) * imgAspectRatio
  let drawHeight : ℚ :=
    if imgAspectRatio > canvasAspectRatio then (canvasWidth : ℚ) / imgAspectRatio
    else (canvasHeight : ℚ)
  let drawX : ℚ := ((canvasWidth : ℚ) - drawWidth) / 2
  let drawY : ℚ := ((canvasHeight : ℚ) - drawHeight) / 2
  { drawX := drawX, drawY := drawY, drawWidth := drawWidth, drawHeight := drawHeight }

/-- The function `composite`: repaint of the visible canvas. -/
def composite (R : Renderer) (s : State) : State :=
  let compositeCanvas := s.canvas
  let canvasWidth := compositeCanvas.width
  let canvasHeight := compositeCanvas.height
  let compositeCanvas := compositeCanvas.fillRect R 0 0 canvasWidth canvasHeight
  match s.drawingCanvas with
  | none => { s with canvas := compositeCanvas }
  | some drawingCanvas =>
    let compositeCanvas :=
      match s.uploadedImage with
      | some uploadedImage =>
        let d := placement canvasWidth canvasHeight uploadedImage.width uploadedImage.height
        compositeCanvas.drawImage R uploadedImage d.drawX d.drawY d.drawWidth d.drawHeight
      | none => compositeCanvas
    { s with canvas := compositeCanvas.drawCanvas R drawingCanvas 0 0 }

/-- The handler `startDrawing` (mouse down); `setIsDrawing(true)` is queued.
Fails when `drawingCanvas` is still `null`. -/
def startDrawing (s : State) (rect : DOMRect) (e : MouseEvent) : Option State :=
  match s.drawingCanvas with
  | none => none
  | some canvas =>
    let x := e.clientX - rect.left
    let y := e.clientY - rect.top
    let canvas := canvas.beginPath
    let canvas := canvas.moveTo x y
    some { s with
      drawingCanvas := some canvas
      pending := { s.pending with isDrawing := some true } }

/-- The handler `draw` (mouse move); `isDrawing`, `color` and `brushSize`
are the values of the last render.  Fails when a session is active and
`drawingCanvas` is `null`. -/
def draw (R : Renderer) (s : State) (rect : DOMRect) (e : MouseEvent) : Option State :=
  if !s.isDrawing then some s
  else
    match s.drawingCanvas with
    | none => none
    | some canvas =>
      let x := e.clientX - rect.left
      let y := e.clientY - rect.top
      let canvas := canvas.lineTo x y
      let canvas := canvas.setStrokeStyle s.color.toPixel
      let canvas := canvas.setLineWidth s.brushSize
      let canvas := canvas.setLineCap LineCap.round
      let canvas := canvas.stroke R
      some (composite R { s with drawingCanvas := some canvas })

/-- The handler `stopDrawing` (mouse up, mouse out): `setIsDrawing(false)`
is queued. -/
def stopDrawing (s : State) : State :=
  { s with pending := { s.pending with isDrawing := some false } }

/-- The function `clearCompositeCanvas`. -/
def clearCompositeCanvas (s : State) : State :=
  let compositeCanvas := s.canvas
  { s with canvas := compositeCanvas.clearRect 0 0 compositeCanvas.width compositeCanvas.height }

/-- The handler `clearCanvas` ("Clear Drawing").  Fails when `drawingCanvas`
is `null`. -/
def clearCanvas (R : Renderer) (s : State) : Option State :=
  match s.drawingCanvas with
  | none => none
  | some canvas =>
    let canvas := canvas.clearRect 0 0 canvas.width canvas.height
    let s := { s with drawingCanvas := some canvas }
    let s := clearCompositeCanvas s
    some (composite R s)

/-- The call `setUploadedImage(image)`: the update is queued. -/
def setUploadedImage (s : State) (image : Option Image) : State :=
  { s with pending := { s.pending with uploadedImage := some image } }

/-- The call `setColor(e.target.value)`: the update is queued. -/
def setColor (s : State) (color : Color) : State :=
  { s with pending := { s.pending with color := some color } }

/-- The call `setBrushSize(Number(e.target.value))`: the update is queued. -/
def setBrushSize (s : State) (brushSize : Nat) : State :=
  { s with pending := { s.pending with brushSize := some brushSize } }

/-- The handler `clearUploadedImage` ("Clear Uploaded Image"), up to and
including its call of `setUploadedImage(null)`. -/
def clearUploadedImage (R : Renderer) (s : State) : State :=
  let s := { s with fileInputValue := "" }
  let s := clearCompositeCanvas s
  let s := if s.uploadedImage.isNone then composite R s else s
  setUploadedImage s none

/-- The effect `useEffect(() => composite(), [composite, uploadedImage])`: it
runs after a render in which `uploadedImage` (or `drawingCanvas`) changed. -/
def compositeEffect (R : Renderer) (changed : Bool) (s : State) : State :=
  if changed then composite R s else s

/-- The state of the component before its first effects run: the canvas of
the JSX (`width={512} height={512}`) and the initial `useState` values. -/
def initialState : State :=
  { canvas := Canvas.create 512 512
    fileInputValue := ""
    drawingCanvas := none
    color := ⟨0, 0, 0⟩
    brushSize := 5
    isDrawing := false
    uploadedImage := none
    pending := Pending.empty }

/-- Mounting the component.  The initialisation effect creates the stroke
canvas, sizes it like the visible canvas and fills the visible canvas white;
the composite effect then runs with `drawingCanvas` still `null`; the render
caused by `setDrawingCanvas` runs the composite effect again. -/
def mount (R : Renderer) : State :=
  let s := initialState
  let drawingCanvas := Canvas.create 300 150
  let canvas := s.canvas
  let drawingCanvas := drawingCanvas.setWidth canvas.width
  let drawingCanvas := drawingCanvas.setHeight canvas.height
  let canvas := canvas.setFillStyle Pixel.white
  let canvas := canvas.fillRect R 0 0 canvas.width canvas.height
  let s := { s with canvas := canvas }
  let s := compositeEffect R true s
  let s := { s with drawingCanvas := some drawingCanvas }
  compositeEffect R true s

/-- The three options of the brush size `<select>`. -/
inductive BrushOption where
  | small
  | medium
  | large
deriving DecidableEq, Repr

/-- The number `Number(e.target.value)` of a brush size option. -/
def BrushOption.value : BrushOption → Nat
  | .small => 2
  | .medium => 5
  | .large => 10

/-- The events the component reacts to.  `imageLoad` is the `load` event of
the image created by `handleImageUpload`. -/
inductive Event where
  | mouseDown (rect : DOMRect) (e : MouseEvent)
  | mouseMove (rect : DOMRect) (e : MouseEvent)
  | mouseUp
  | mouseOut
  | clickClearDrawing
  | clickClearUploadedImage
  | imageLoad (image : Image)
  | changeColor (color : Color)
  | changeBrushSize (option : BrushOption)

/-- The handler of an event, without the render that follows. -/
def handle (R : Renderer) (s : State) : Event → Option State
  | .mouseDown rect e => startDrawing s rect e
  | .mouseMove rect e => draw R s rect e
  | .mouseUp => some (stopDrawing s)
  | .mouseOut => some (stopDrawing s)
  | .clickClearDrawing => clearCanvas R s
  | .clickClearUploadedImage => some (clearUploadedImage R s)
  | .imageLoad image => some (setUploadedImage s (some image))
  | .changeColor color => some (setColor s color)
  | .changeBrushSize option => some (setBrushSize s option.value)

/-- Whether the composite effect runs at the next render: the queued
`uploadedImage` differs from the rendered one.  An uploaded image is a new
object each time, so a queued image always differs; a queued `null` differs
exactly when an image is rendered. -/
def effectDue (s : State) : Bool :=
  match s.pending.uploadedImage with
  | none => false
  | some none => s.uploadedImage.isSome
  | some (some _) => true

/-- The queued updates become the values of the new render. -/
def applyQueued (s : State) : State :=
  { s with
    color := s.pending.color.getD s.color
    brushSize := s.pending.brushSize.getD s.brushSize
    isDrawing := s.pending.isDrawing.getD s.isDrawing
    uploadedImage := s.pending.uploadedImage.getD s.uploadedImage
    pending := Pending.empty }

/-- A render of the component: the queued updates become the values the
handlers see, and the composite effect runs when `uploadedImage` changed. -/
def commit (R : Renderer) (s : State) : State :=
  compositeEffect R (effectDue s) (applyQueued s)

/-- One event handled and rendered: the handler, then the render with its
effect. -/
def dispatch (R : Renderer) (s : State) (ev : Event) : Option State :=
  (handle R s ev).map (commit R)

/-- Runs a sequence of events, each rendered before the next, stopping at the
first failure. -/
def run (R : Renderer) (s : State) : List Event → Option State
  | [] => some s
  | ev :: rest =>
    match dispatch R s ev with
    | none => none
    | some t => run R t rest

/-- What can happen to the mounted component: a handler runs, or React
renders. -/
inductive Action where
  | handle (ev : Event)
  | render

/-- One action. -/
def act (R : Renderer) (s : State) : Action → Option State
  | .handle ev => handle R s ev
  | .render => some (commit R s)

/-- Runs a sequence of actions, stopping at the first failure. -/
def runActions (R : Renderer) (s : State) : List Action → Option State
  | [] => some s
  | a :: rest =>
    match act R s a with
    | none => none
    | some t => runActions R t rest

/-- States the mounted component can be in, between any two actions: a
render may come right after a handler or after several. -/
inductive Reachable (R : Renderer) : State → Prop where
  | mount : Reachable R (mount R)
  | step {s t : State} (a : Action) (before : Reachable R s)
      (next : act R s a = some t) : Reachable R t

/-! ## Binary64 arithmetic

JavaScript numbers are IEEE 754 binary64 values.  A finite binary64 value is
a rational; an operation returns the exact result rounded to the nearest
value with a 53 bit significand, ties to the even one.  The exponent range is
left unbounded: for canvas and image sizes below `2 ^ 32` no result of the
placement overflows or is subnormal. -/

/-- Rounds to the nearest integer, a tie to the even one. -/
def roundHalfEven (x : ℚ) : ℤ :=
  if x - ⌊x⌋ < 1 / 2 then ⌊x⌋
  else if 1 / 2 < x - ⌊x⌋ then ⌊x⌋ + 1
  else if ⌊x⌋ % 2 = 0 then ⌊x⌋ else ⌊x⌋ + 1

/-- Rounds to the nearest binary64 value: with `2 ^ k ≤ |x| < 2 ^ (k + 1)`,
the nearest multiple of `2 ^ (k - 52)`. -/
def roundDouble (x : ℚ) : ℚ :=
  if x = 0 then 0
  else (roundHalfEven (x / (2 : ℚ) ^ (Int.log 2 |x| - 52)) : ℚ) * (2 : ℚ) ^ (Int.log 2 |x| - 52)

/-- The placement computed in `composite` (source lines 110 to 128) in
binary64 arithmetic: every division, multiplication and subtraction is
rounded.  The sizes are integers below `2 ^ 53` and enter exactly. -/
def placementDouble (canvasWidth canvasHeight imgWidth imgHeight : Nat) : DrawRect :=
  let imgAspectRatio : ℚ := roundDouble ((imgWidth : ℚ) / (imgHeight : ℚ))
  let canvasAspectRatio : ℚ := roundDouble ((canvasWidth : ℚ) / (canvasHeight : ℚ))
  let drawWidth : ℚ :=
    if imgAspectRatio > canvasAspectRatio then (canvasWidth : ℚ)
    else roundDouble ((canvasHeight : ℚ) * imgAspectRatio)
  let drawHeight : ℚ :=
    if imgAspectRatio > canvasAspectRatio then roundDouble ((canvasWidth : ℚ) / imgAspectRatio)
    else (canvasHeight : ℚ)
  let drawX : ℚ := roundDouble (roundDouble ((canvasWidth : ℚ) - drawWidth) / 2)
  let drawY : ℚ := roundDouble (roundDouble ((canvasHeight : ℚ) - drawHeight) / 2)
  { drawX := drawX, drawY := drawY, drawWidth := drawWidth, drawHeight := drawHeight }

/-! ## A reference rendering backend

One executable backend, for concrete evaluations: exact source-over on
covering and on transparent sources (an integer blend in between), a stroke
that covers the pixels within half the line width of a segment of the path,
and nearest-neighbour resampling. -/

/-- Source-over blending of the reference backend. -/
def refOver (src dst : Pixel) : Pixel :=
  if src.a = 255 then src
  else if src.a = 0 then dst
  else
    let a := src.a + dst.a * (255 - src.a) / 255
    let mix := fun (c d : Nat) =>
      if a = 0 then 0 else (c * src.a + d * dst.a * (255 - src.a) / 255) / a
    ⟨mix src.r dst.r, mix src.g dst.g, mix src.b dst.b, a⟩

/-- Whether pixel `(i, j)` lies within half the line width of the segment from
`p` to `q`, in integer arithmetic. -/
def nearSegment (p q : Point) (lineWidth : Nat) (i j : Nat) : Bool :=
  let dx := q.x - p.x
  let dy := q.y - p.y
  let ex := (i : Int) - p.x
  let ey := (j : Int) - p.y
  let t := ex * dx + ey * dy
  let len := dx * dx + dy * dy
  let w2 : Int := (lineWidth : Int) * lineWidth
  if t ≤ 0 then decide (4 * (ex * ex + ey * ey) ≤ w2)
  else if len ≤ t then
    decide (4 * (((i : Int) - q.x) * ((i : Int) - q.x) + ((j : Int) - q.y) * ((j : Int) - q.y)) ≤ w2)
  else decide (4 * ((ex * ex + ey * ey) * len - t * t) ≤ w2 * len)

/-- Whether pixel `(i, j)` lies within half the line width of a subpath. -/
def nearSubpath (lineWidth : Nat) (i j : Nat) : List Point → Bool
  | p :: q :: rest => nearSegment p q lineWidth i j || nearSubpath lineWidth i j (q :: rest)
  | _ => false

/-- Stroke coverage of the reference backend: full on the pixels within half
the line width of the path, none elsewhere. -/
def refCoverage (path : List (List Point)) (lineWidth : Nat) (_cap : LineCap)
    (_join : LineJoin) (i j : Nat) : Nat :=
  if path.any (nearSubpath lineWidth i j) then 255 else 0

/-- Nearest-neighbour resampling of an image into a destination rectangle. -/
def refResample (image : Image) (dx dy dw dh : ℚ) (i j : Nat) : Pixel :=
  let cx : ℚ := (i : ℚ) + 1 / 2
  let cy : ℚ := (j : ℚ) + 1 / 2
  if dx ≤ cx ∧ cx < dx + dw ∧ dy ≤ cy ∧ cy < dy + dh then
    image.px (Int.toNat ⌊(cx - dx) * (image.width : ℚ) / dw⌋)
      (Int.toNat ⌊(cy - dy) * (image.height : ℚ) / dh⌋)
  else Pixel.transparent

/-- The reference backend. -/
def refRenderer : Renderer :=
  { over := refOver
    over_solid := by
      intro src dst h
      simp [refOver, h]
    over_clear := by
      intro src dst h
      simp [refOver, h]
    strokeCoverage := refCoverage
    resample := refResample }

/-! ## The body of a stroked segment -/

/-- Whether the point `(x, y)` lies in the body of the stroke of the segment
from `p` to `q`: its projection falls on the segment and its distance from
the line is at most half the line width. -/
def cornerInBody (p q : Point) (lineWidth : Nat) (x y : Int) : Bool :=
  let dx := q.x - p.x
  let dy := q.y - p.y
  let ex := x - p.x
  let ey := y - p.y
  let t := ex * dx + ey * dy
  let len := dx * dx + dy * dy
  let w2 : Int := (lineWidth : Int) * lineWidth
  decide (0 < len ∧ 0 ≤ t ∧ t ≤ len ∧ 4 * ((ex * ex + ey * ey) * len - t * t) ≤ w2 * len)

/-- Whether the square of pixel `(i, j)`, with corners `(i, j)` and
`(i + 1, j + 1)`, lies in the body of the stroke of the segment from `p` to
`q`. -/
def inBody (p q : Point) (lineWidth : Nat) (i j : Nat) : Bool :=
  cornerInBody p q lineWidth i j && cornerInBody p q lineWidth (i + 1) j &&
    cornerInBody p q lineWidth i (j + 1) && cornerInBody p q lineWidth (i + 1) (j + 1)

/-- The segments of a subpath. -/
def segments : List Point → List (Point × Point)
  | p :: q :: rest => (p, q) :: segments (q :: rest)
  | _ => []

/-- A backend whose stroke covers fully every pixel that lies in the body of
a segment of the path, whatever the caps and joins. -/
def Renderer.CoversBody (R : Renderer) : Prop :=
  ∀ (path : List (List Point)) (lineWidth : Nat) (cap : LineCap) (join : LineJoin)
    (sub : List Point) (p q : Point) (i j : Nat),
    sub ∈ path → (p, q) ∈ segments sub → inBody p q lineWidth i j = true →
    R.strokeCoverage path lineWidth cap join i j = 255

/-- The placement as the specification words it: with `r_img` and `r_canvas`
the two aspect ratios, a relatively wider image takes the canvas width and
height `drawWidth / r_img`, any other image takes the canvas height and width
`drawHeight * r_img`; the rectangle is centred. -/
def specPlacement (canvasWidth canvasHeight imgWidth imgHeight : ℚ) : DrawRect :=
  let r_img := imgWidth / imgHeight
  let r_canvas := canvasWidth / canvasHeight
  if r_img > r_canvas then
    { drawWidth := canvasWidth
      drawHeight := canvasWidth / r_img
      drawX := (canvasWidth - canvasWidth) / 2
      drawY := (canvasHeight - canvasWidth / r_img) / 2 }
  else
    { drawHeight := canvasHeight
      drawWidth := canvasHeight * r_img
      drawX := (canvasWidth - canvasHeight * r_img) / 2
      drawY := (canvasHeight - canvasHeight) / 2 }

/-- A black image of 200 by 100 pixels, for concrete evaluations. -/
def sampleImage : Image :=
  { width := 200, height := 100, px := fun _ _ => Pixel.black }

/-! ## Predicates used in the statements -/

/-- The state with the bitmap of the visible canvas replaced. -/
def State.withPixels (s : State) (px : Nat → Nat → Pixel) : State :=
  { s with canvas := { s.canvas with px := px } }

/-- Every pixel of the bitmap is transparent. -/
def Canvas.Blank (c : Canvas) : Prop :=
  ∀ i j, i < c.width → j < c.height → c.px i j = Pixel.transparent

/-- Every pixel of the bitmap is white and fully covering. -/
def Canvas.AllWhite (c : Canvas) : Prop :=
  ∀ i j, i < c.width → j < c.height → c.px i j = Pixel.white

/-- The layer `drawImage(source, 0, 0)` blends onto the destination. -/
def Canvas.asLayer (source : Canvas) (i j : Nat) : Pixel :=
  if i < source.width ∧ j < source.height then source.px i j else Pixel.transparent

/-- The pixel `composite` computes at `(i, j)` from the fill style, the
background and the stroke canvas when the fill style is fully covering: the
closed form of `composite`, used to reason about it. -/
def rendered (R : Renderer) (s : State) (i j : Nat) : Pixel :=
  match s.drawingCanvas with
  | none => s.canvas.ctx.fillStyle
  | some drawingCanvas =>
    let background :=
      match s.uploadedImage with
      | some image =>
        if image.width = 0 ∨ image.height = 0 then s.canvas.ctx.fillStyle
        else
          let d := placement s.canvas.width s.canvas.height image.width image.height
          R.over (R.resample image d.drawX d.drawY d.drawWidth d.drawHeight i j)
            s.canvas.ctx.fillStyle
      | none => s.canvas.ctx.fillStyle
    R.over (drawingCanvas.asLayer i j) background

/-- What the mounted component keeps true apart from the bitmaps: the fill
style of the visible context, the sizes, the presence of the stroke canvas with
its untouched `lineJoin`, and a positive brush size, rendered or queued. -/
structure Ready (s : State) : Prop where
  fill : s.canvas.ctx.fillStyle = Pixel.white
  width : s.canvas.width = 512
  height : s.canvas.height = 512
  strokes : ∃ dc, s.drawingCanvas = some dc ∧ dc.width = 512 ∧ dc.height = 512 ∧
    dc.ctx.lineJoin = LineJoin.miter
  brush : 0 < s.brushSize
  queued : ∀ b, s.pending.brushSize = some b → 0 < b

/-- The visible bitmap is the composite of the current layers. -/
def Fresh (R : Renderer) (s : State) : Prop :=
  ∀ i j, i < s.canvas.width → j < s.canvas.height → s.canvas.px i j = rendered R s i j

/-- The visible bitmap is the composite of the current layers unless the
composite effect is due at the next render. -/
def Synced (R : Renderer) (s : State) : Prop :=
  effectDue s = false → Fresh R s

/-- The bitmap is all white inside its bounds and agrees with `base` in
size, context state and outside the bounds. -/
def Canvas.WhiteOver (base c : Canvas) : Prop :=
  c.width = base.width ∧ c.height = base.height ∧ c.ctx = base.ctx ∧ c.AllWhite ∧
    ∀ i j, ¬ (i < base.width ∧ j < base.height) → c.px i j = base.px i j

/-- The state after a sequence of actions on the mounted component with the
reference backend, for concrete evaluations. -/
def afterActions (actions : List Action) : State :=
  (runActions refRenderer (mount refRenderer) actions).getD (mount refRenderer)

/-- Pointer down at (10,10), a render, and a pointer move to (50,10): one
stroke segment, for concrete evaluations. -/
def strokeDemo : List Action :=
  [Action.handle (Event.mouseDown ⟨0, 0⟩ ⟨10, 10⟩), Action.render,
    Action.handle (Event.mouseMove ⟨0, 0⟩ ⟨50, 10⟩)]

/-- Pointer down at (10,10) and its render: an active session, for concrete
evaluations. -/
def penDownDemo : List Action :=
  [Action.handle (Event.mouseDown ⟨0, 0⟩ ⟨10, 10⟩), Action.render]

/-- A completed upload of `sampleImage` and its render, for concrete
evaluations. -/
def uploadDemo : List Action :=
  [Action.handle (Event.imageLoad sampleImage), Action.render]

/-! ## Placement of the background -/

theorem placement_eq_specPlacement (cw ch iw ih : Nat) :
    placement cw ch iw ih = specPlacement cw ch iw ih := by
  unfold placement specPlacement
  by_cases h : (iw : ℚ) / ih > (cw : ℚ) / ch <;> simp [h]

theorem placement_wide (cw ch iw ih : Nat) (h : (iw : ℚ) / ih > (cw : ℚ) / ch) :
    placement cw ch iw ih =
      { drawX := 0, drawY := ((ch : ℚ) - (cw : ℚ) / ((iw : ℚ) / ih)) / 2,
        drawWidth := cw, drawHeight := (cw : ℚ) / ((iw : ℚ) / ih) } := by
  unfold placement
  simp [h]

theorem placement_tall (cw ch iw ih : Nat) (h : ¬ (iw : ℚ) / ih > (cw : ℚ) / ch) :
    placement cw ch iw ih =
      { drawX := ((cw : ℚ) - (ch : ℚ) * ((iw : ℚ) / ih)) / 2, drawY := 0,
        drawWidth := (ch : ℚ) * ((iw : ℚ) / ih), drawHeight := ch } := by
  unfold placement
  simp [h]

theorem wide_height_le (cw ch iw ih : ℚ) (hch : 0 < ch) (hiw : 0 < iw) (hih : 0 < ih)
    (h : iw / ih > cw / ch) : cw / (iw / ih) ≤ ch := by
  have h1 : cw * ih < iw * ch := (div_lt_div_iff₀ hch hih).1 h
  rw [div_div_eq_mul_div, div_le_iff₀ hiw]
  linarith

theorem tall_width_le (cw ch iw ih : ℚ) (hch : 0 < ch) (hih : 0 < ih)
    (h : ¬ iw / ih > cw / ch) : ch * (iw / ih) ≤ cw := by
  have h1 : iw * ch ≤ cw * ih := (div_le_div_iff₀ hih hch).1 (not_lt.1 h)
  rw [← mul_div_assoc, div_le_iff₀ hih]
  linarith

/-! ## Binary64 rounding -/

theorem roundDouble_zero : roundDouble 0 = 0 := by
  simp [roundDouble]

theorem log_eq_of_bounds (x : ℚ) (k : ℤ) (h1 : (2 : ℚ) ^ k ≤ |x|)
    (h2 : |x| < (2 : ℚ) ^ (k + 1)) : x ≠ 0 ∧ Int.log 2 |x| = k := by
  have hx : x ≠ 0 := by
    intro h
    rw [h, abs_zero] at h1
    have : (0 : ℚ) < 2 ^ k := by positivity
    linarith
  have hpos : 0 < |x| := abs_pos.2 hx
  refine ⟨hx, le_antisymm ?_ ?_⟩
  · have := (Int.lt_zpow_iff_log_lt (by norm_num : 1 < 2) hpos).1 (by exact_mod_cast h2)
    omega
  · exact (Int.zpow_le_iff_le_log (by norm_num : 1 < 2) hpos).1 (by exact_mod_cast h1)

theorem roundHalfEven_near (y : ℚ) (n : ℤ) (h : |y - n| < 1 / 2) : roundHalfEven y = n := by
  have habs := abs_lt.1 h
  unfold roundHalfEven
  by_cases hc : y < n
  · have hf : ⌊y⌋ = n - 1 := by
      rw [Int.floor_eq_iff]
      push_cast
      constructor <;> linarith [habs.1, habs.2]
    rw [hf]
    push_cast
    rw [if_neg (by linarith [habs.1]), if_pos (by linarith [habs.1])]
    ring
  · have hf : ⌊y⌋ = n := by
      rw [Int.floor_eq_iff]
      constructor <;> linarith [habs.1, habs.2, not_lt.1 hc]
    rw [hf, if_pos (by linarith [habs.2])]

theorem roundHalfEven_tie (y : ℚ) (m : ℤ) (h : y = m + 1 / 2) :
    roundHalfEven y = if m % 2 = 0 then m else m + 1 := by
  have hf : ⌊y⌋ = m := by
    rw [Int.floor_eq_iff]
    constructor <;> linarith
  unfold roundHalfEven
  rw [hf, if_neg (by linarith), if_neg (by linarith)]

theorem roundDouble_eq_of (x : ℚ) (e n : ℤ) (h1 : (2 : ℚ) ^ (e + 52) ≤ |x|)
    (h2 : |x| < (2 : ℚ) ^ (e + 52 + 1)) (h3 : |x / (2 : ℚ) ^ e - n| < 1 / 2) :
    roundDouble x = n * (2 : ℚ) ^ e := by
  obtain ⟨hx, hlog⟩ := log_eq_of_bounds x (e + 52) h1 h2
  have he : Int.log 2 |x| - 52 = e := by omega
  unfold roundDouble
  rw [if_neg hx, he, roundHalfEven_near _ n h3]

theorem roundDouble_tie (x : ℚ) (e m : ℤ) (h1 : (2 : ℚ) ^ (e + 52) ≤ |x|)
    (h2 : |x| < (2 : ℚ) ^ (e + 52 + 1)) (h3 : x / (2 : ℚ) ^ e = m + 1 / 2) :
    roundDouble x = ((if m % 2 = 0 then m else m + 1 : ℤ) : ℚ) * (2 : ℚ) ^ e := by
  obtain ⟨hx, hlog⟩ := log_eq_of_bounds x (e + 52) h1 h2
  have he : Int.log 2 |x| - 52 = e := by omega
  unfold roundDouble
  rw [if_neg hx, he, roundHalfEven_tie _ m h3]

theorem roundHalfEven_int (n : ℤ) : roundHalfEven (n : ℚ) = n :=
  roundHalfEven_near _ n (by simp)

theorem roundHalfEven_floor_le (x : ℚ) : ⌊x⌋ ≤ roundHalfEven x := by
  unfold roundHalfEven
  split_ifs <;> omega

theorem roundHalfEven_le_floor_succ (x : ℚ) : roundHalfEven x ≤ ⌊x⌋ + 1 := by
  unfold roundHalfEven
  split_ifs <;> omega

theorem roundHalfEven_mono (x y : ℚ) (h : x ≤ y) : roundHalfEven x ≤ roundHalfEven y := by
  have hf : ⌊x⌋ ≤ ⌊y⌋ := Int.floor_mono h
  rcases lt_or_eq_of_le hf with hlt | heq
  · calc roundHalfEven x ≤ ⌊x⌋ + 1 := roundHalfEven_le_floor_succ x
      _ ≤ ⌊y⌋ := hlt
      _ ≤ roundHalfEven y := roundHalfEven_floor_le y
  · unfold roundHalfEven
    rw [heq]
    have hxy : x - ⌊y⌋ ≤ y - ⌊y⌋ := by linarith
    split_ifs <;> first | omega | linarith

theorem two_zpow_split (k : ℤ) (n : ℕ) :
    (2 : ℚ) ^ k = ((2 ^ n : ℤ) : ℚ) * (2 : ℚ) ^ (k - (n : ℤ)) := by
  rw [zpow_sub₀ (by norm_num : (2 : ℚ) ≠ 0), zpow_natCast]
  push_cast
  field_simp

theorem roundDouble_pos_bounds (x : ℚ) (hx : 0 < x) :
    (2 : ℚ) ^ (Int.log 2 x) ≤ roundDouble x ∧ roundDouble x ≤ (2 : ℚ) ^ (Int.log 2 x + 1) := by
  have habs : |x| = x := abs_of_pos hx
  have hlo : (2 : ℚ) ^ (Int.log 2 x) ≤ x := by
    exact_mod_cast Int.zpow_log_le_self (by norm_num : 1 < 2) hx
  have hhi : x < (2 : ℚ) ^ (Int.log 2 x + 1) := by
    exact_mod_cast Int.lt_zpow_succ_log_self (by norm_num : 1 < 2) x
  have hp : (0 : ℚ) < (2 : ℚ) ^ (Int.log 2 x - 52) := by positivity
  have e1 : (2 : ℚ) ^ (Int.log 2 x) = ((2 ^ 52 : ℤ) : ℚ) * (2 : ℚ) ^ (Int.log 2 x - 52) :=
    two_zpow_split (Int.log 2 x) 52
  have e2 : (2 : ℚ) ^ (Int.log 2 x + 1) = ((2 ^ 53 : ℤ) : ℚ) * (2 : ℚ) ^ (Int.log 2 x - 52) := by
    have := two_zpow_split (Int.log 2 x + 1) 53
    rw [this]
    congr 2
    push_cast
    ring
  unfold roundDouble
  rw [if_neg (ne_of_gt hx), habs]
  constructor
  · rw [e1]
    apply mul_le_mul_of_nonneg_right _ (le_of_lt hp)
    have : ((2 ^ 52 : ℤ) : ℚ) ≤ x / (2 : ℚ) ^ (Int.log 2 x - 52) := by
      rw [le_div_iff₀ hp, ← e1]
      exact hlo
    have := roundHalfEven_mono _ _ this
    rw [roundHalfEven_int] at this
    exact_mod_cast this
  · rw [e2]
    apply mul_le_mul_of_nonneg_right _ (le_of_lt hp)
    have : x / (2 : ℚ) ^ (Int.log 2 x - 52) ≤ ((2 ^ 53 : ℤ) : ℚ) := by
      rw [div_le_iff₀ hp, ← e2]
      exact le_of_lt hhi
    have := roundHalfEven_mono _ _ this
    rw [roundHalfEven_int] at this
    exact_mod_cast this

theorem roundDouble_nonneg (x : ℚ) (hx : 0 ≤ x) : 0 ≤ roundDouble x := by
  rcases eq_or_lt_of_le hx with h | h
  · rw [← h, roundDouble_zero]
  · exact le_trans (by positivity) (roundDouble_pos_bounds x h).1

theorem roundDouble_mono (x y : ℚ) (hx : 0 ≤ x) (h : x ≤ y) : roundDouble x ≤ roundDouble y := by
  rcases eq_or_lt_of_le hx with h0 | hpos
  · rw [← h0, roundDouble_zero]
    exact roundDouble_nonneg y (le_trans hx h)
  · have hy : 0 < y := lt_of_lt_of_le hpos h
    have hk : Int.log 2 x ≤ Int.log 2 y := Int.log_mono_right hpos h
    rcases lt_or_eq_of_le hk with hlt | heq
    · calc roundDouble x ≤ (2 : ℚ) ^ (Int.log 2 x + 1) := (roundDouble_pos_bounds x hpos).2
        _ ≤ (2 : ℚ) ^ (Int.log 2 y) := zpow_le_zpow_right₀ (by norm_num) (by omega)
        _ ≤ roundDouble y := (roundDouble_pos_bounds y hy).1
    · unfold roundDouble
      rw [if_neg (ne_of_gt hpos), if_neg (ne_of_gt hy), abs_of_pos hpos, abs_of_pos hy, heq]
      have hp : (0 : ℚ) < (2 : ℚ) ^ (Int.log 2 y - 52) := by positivity
      apply mul_le_mul_of_nonneg_right _ (le_of_lt hp)
      have : x / (2 : ℚ) ^ (Int.log 2 y - 52) ≤ y / (2 : ℚ) ^ (Int.log 2 y - 52) :=
        div_le_div_of_nonneg_right h (le_of_lt hp)
      exact_mod_cast roundHalfEven_mono _ _ this

theorem roundDouble_two_zpow (k : ℤ) : roundDouble ((2 : ℚ) ^ k) = (2 : ℚ) ^ k := by
  have hp : (0 : ℚ) < (2 : ℚ) ^ k := by positivity
  have e : (2 : ℚ) ^ k = ((2 ^ 52 : ℤ) : ℚ) * (2 : ℚ) ^ (k - 52) := two_zpow_split k 52
  rw [roundDouble_eq_of ((2 : ℚ) ^ k) (k - 52) (2 ^ 52)]
  · exact e.symm
  · rw [abs_of_pos hp]
    apply le_of_eq
    congr 1
    ring
  · rw [abs_of_pos hp]
    apply zpow_lt_zpow_right₀ (by norm_num)
    omega
  · have hq : (0 : ℚ) < (2 : ℚ) ^ (k - 52) := by positivity
    have : (2 : ℚ) ^ k / (2 : ℚ) ^ (k - 52) = ((2 ^ 52 : ℤ) : ℚ) := by
      rw [div_eq_iff (ne_of_gt hq)]
      exact e
    rw [this]
    simp

theorem roundDouble_half_le (y : ℚ) (hy : 0 ≤ y) : roundDouble (roundDouble y / 2) ≤ y := by
  rcases eq_or_lt_of_le hy with h | h
  · rw [← h, roundDouble_zero]
    norm_num [roundDouble_zero]
  · have hb := roundDouble_pos_bounds y h
    have hlo : (2 : ℚ) ^ (Int.log 2 y) ≤ y := by
      exact_mod_cast Int.zpow_log_le_self (by norm_num : 1 < 2) h
    have h2 : roundDouble y / 2 ≤ (2 : ℚ) ^ (Int.log 2 y) := by
      have : (2 : ℚ) ^ (Int.log 2 y + 1) = 2 * (2 : ℚ) ^ (Int.log 2 y) := by
        rw [zpow_add_one₀ (by norm_num : (2 : ℚ) ≠ 0)]
        ring
      linarith [hb.2]
    have h0 : 0 ≤ roundDouble y / 2 := by
      have := roundDouble_nonneg y hy
      linarith
    calc roundDouble (roundDouble y / 2) ≤ roundDouble ((2 : ℚ) ^ (Int.log 2 y)) :=
          roundDouble_mono _ _ h0 h2
      _ = (2 : ℚ) ^ (Int.log 2 y) := roundDouble_two_zpow _
      _ ≤ y := hlo

theorem roundDouble_natCast (m : ℕ) (hm : m < 2 ^ 53) : roundDouble (m : ℚ) = m := by
  rcases Nat.eq_zero_or_pos m with h0 | hpos
  · rw [h0]
    simp [roundDouble_zero]
  have hj : Nat.log 2 m ≤ 52 := by
    have := Nat.log_lt_of_lt_pow (Nat.pos_iff_ne_zero.1 hpos) hm
    omega
  have hx : (0 : ℚ) < (m : ℚ) := by exact_mod_cast hpos
  have hq : (0 : ℚ) < (2 : ℚ) ^ ((Nat.log 2 m : ℤ) - 52) := by positivity
  have hsplit : (2 : ℚ) ^ ((52 - Nat.log 2 m : ℕ) : ℤ) * (2 : ℚ) ^ ((Nat.log 2 m : ℤ) - 52) = 1 := by
    rw [← zpow_add₀ (by norm_num : (2 : ℚ) ≠ 0)]
    have : ((52 - Nat.log 2 m : ℕ) : ℤ) + ((Nat.log 2 m : ℤ) - 52) = 0 := by omega
    rw [this, zpow_zero]
  have hval : ((m * 2 ^ (52 - Nat.log 2 m) : ℕ) : ℚ) * (2 : ℚ) ^ ((Nat.log 2 m : ℤ) - 52)
      = (m : ℚ) := by
    push_cast
    rw [mul_assoc, ← zpow_natCast (2 : ℚ) (52 - Nat.log 2 m), hsplit, mul_one]
  have hr := roundDouble_eq_of (m : ℚ) ((Nat.log 2 m : ℤ) - 52)
    ((m * 2 ^ (52 - Nat.log 2 m) : ℕ) : ℤ) ?_ ?_ ?_
  · rw [hr]
    exact_mod_cast hval
  · rw [abs_of_pos hx]
    have : (Nat.log 2 m : ℤ) - 52 + 52 = (Nat.log 2 m : ℤ) := by ring
    rw [this, zpow_natCast]
    exact_mod_cast Nat.pow_log_le_self 2 (Nat.pos_iff_ne_zero.1 hpos)
  · rw [abs_of_pos hx]
    have : (Nat.log 2 m : ℤ) - 52 + 52 + 1 = ((Nat.log 2 m + 1 : ℕ) : ℤ) := by
      push_cast
      ring
    rw [this, zpow_natCast]
    exact_mod_cast Nat.lt_pow_succ_log_self (by norm_num : 1 < 2) m
  · have : (m : ℚ) / (2 : ℚ) ^ ((Nat.log 2 m : ℤ) - 52)
        = (((m * 2 ^ (52 - Nat.log 2 m) : ℕ) : ℤ) : ℚ) := by
      rw [div_eq_iff (ne_of_gt hq)]
      exact_mod_cast hval.symm
    rw [this]
    simp

theorem placementDouble_wide (cw ch iw ih : Nat)
    (h : roundDouble ((iw : ℚ) / ih) > roundDouble ((cw : ℚ) / ch)) :
    placementDouble cw ch iw ih =
      { drawX := 0
        drawY := roundDouble (roundDouble ((ch : ℚ)
          - roundDouble ((cw : ℚ) / roundDouble ((iw : ℚ) / ih))) / 2)
        drawWidth := cw
        drawHeight := roundDouble ((cw : ℚ) / roundDouble ((iw : ℚ) / ih)) } := by
  unfold placementDouble
  simp [h, roundDouble_zero]

theorem placementDouble_tall (cw ch iw ih : Nat)
    (h : ¬ roundDouble ((iw : ℚ) / ih) > roundDouble ((cw : ℚ) / ch)) :
    placementDouble cw ch iw ih =
      { drawX := roundDouble (roundDouble ((cw : ℚ)
          - roundDouble ((ch : ℚ) * roundDouble ((iw : ℚ) / ih))) / 2)
        drawY := 0
        drawWidth := roundDouble ((ch : ℚ) * roundDouble ((iw : ℚ) / ih))
        drawHeight := ch } := by
  unfold placementDouble
  simp [h, roundDouble_zero]

theorem placementDouble_within (cw ch iw ih : Nat)
    (hpos : 0 < cw ∧ 0 < ch ∧ 0 < iw ∧ 0 < ih) (hcw : cw < 2 ^ 53) (hch : ch < 2 ^ 53)
    (hq : roundDouble ((cw : ℚ) / ch) = (cw : ℚ) / ch) :
    0 ≤ (placementDouble cw ch iw ih).drawX ∧ 0 ≤ (placementDouble cw ch iw ih).drawY ∧
    (placementDouble cw ch iw ih).drawX + (placementDouble cw ch iw ih).drawWidth ≤ (cw : ℚ) ∧
    (placementDouble cw ch iw ih).drawY + (placementDouble cw ch iw ih).drawHeight
      ≤ (ch : ℚ) := by
  obtain ⟨hcw0, hch0, hiw0, hih0⟩ := hpos
  have hcw' : (0 : ℚ) < cw := by exact_mod_cast hcw0
  have hch' : (0 : ℚ) < ch := by exact_mod_cast hch0
  have hiw' : (0 : ℚ) < iw := by exact_mod_cast hiw0
  have hih' : (0 : ℚ) < ih := by exact_mod_cast hih0
  have hr0 : 0 ≤ roundDouble ((iw : ℚ) / ih) :=
    roundDouble_nonneg _ (le_of_lt (div_pos hiw' hih'))
  by_cases h : roundDouble ((iw : ℚ) / ih) > roundDouble ((cw : ℚ) / ch)
  · rw [placementDouble_wide cw ch iw ih h]
    simp only
    rw [hq] at h
    have hrpos : 0 < roundDouble ((iw : ℚ) / ih) := lt_trans (div_pos hcw' hch') h
    have hle : (cw : ℚ) / roundDouble ((iw : ℚ) / ih) ≤ ch := by
      rw [div_le_iff₀ hrpos]
      have := (div_lt_iff₀ hch').1 h
      linarith
    have hdh : roundDouble ((cw : ℚ) / roundDouble ((iw : ℚ) / ih)) ≤ ch := by
      have := roundDouble_mono _ _ (le_of_lt (div_pos hcw' hrpos)) hle
      rwa [roundDouble_natCast ch hch] at this
    have hy : 0 ≤ (ch : ℚ) - roundDouble ((cw : ℚ) / roundDouble ((iw : ℚ) / ih)) := by
      linarith
    have h1 := roundDouble_half_le _ hy
    have h2 : 0 ≤ roundDouble (roundDouble ((ch : ℚ)
        - roundDouble ((cw : ℚ) / roundDouble ((iw : ℚ) / ih))) / 2) := by
      apply roundDouble_nonneg
      have := roundDouble_nonneg _ hy
      linarith
    refine ⟨le_refl _, h2, ?_, ?_⟩ <;> linarith
  · rw [placementDouble_tall cw ch iw ih h]
    simp only
    rw [hq] at h
    have hle : (ch : ℚ) * roundDouble ((iw : ℚ) / ih) ≤ cw := by
      have := (le_div_iff₀ hch').1 (not_lt.1 h)
      linarith
    have hdw : roundDouble ((ch : ℚ) * roundDouble ((iw : ℚ) / ih)) ≤ cw := by
      have := roundDouble_mono _ _ (mul_nonneg (le_of_lt hch') hr0) hle
      rwa [roundDouble_natCast cw hcw] at this
    have hx : 0 ≤ (cw : ℚ) - roundDouble ((ch : ℚ) * roundDouble ((iw : ℚ) / ih)) := by
      linarith
    have h1 := roundDouble_half_le _ hx
    have h2 : 0 ≤ roundDouble (roundDouble ((cw : ℚ)
        - roundDouble ((ch : ℚ) * roundDouble ((iw : ℚ) / ih))) / 2) := by
      apply roundDouble_nonneg
      have := roundDouble_nonneg _ hx
      linarith
    refine ⟨h2, le_refl _, ?_, ?_⟩ <;> linarith

theorem placementDouble_spans (cw ch iw ih : Nat) :
    ((placementDouble cw ch iw ih).drawX = 0 ∧
      (placementDouble cw ch iw ih).drawWidth = (cw : ℚ)) ∨
    ((placementDouble cw ch iw ih).drawY = 0 ∧
      (placementDouble cw ch iw ih).drawHeight = (ch : ℚ)) := by
  unfold placementDouble
  by_cases h : roundDouble ((iw : ℚ) / ih) > roundDouble ((cw : ℚ) / ch)
  · left
    simp [h, roundDouble_zero]
  · right
    simp [h, roundDouble_zero]

theorem double_three : roundDouble ((300 : ℚ) / 100) = 3 := by
  rw [roundDouble_eq_of ((300 : ℚ) / 100) (-51) 6755399441055744
    (by norm_num [abs_of_pos]) (by norm_num [abs_of_pos]) (by norm_num [abs_lt])]
  norm_num

theorem double_one : roundDouble ((512 : ℚ) / 512) = 1 := by
  rw [roundDouble_eq_of ((512 : ℚ) / 512) (-52) 4503599627370496
    (by norm_num [abs_of_pos]) (by norm_num [abs_of_pos]) (by norm_num [abs_lt])]
  norm_num

theorem placementDouble_300_100 :
    placementDouble 512 512 300 100 =
      { drawX := 0, drawY := 3002399751580331 / 17592186044416, drawWidth := 512,
        drawHeight := 6004799503160661 / 35184372088832 } := by
  have h3 : roundDouble ((512 : ℚ) / 3) = 6004799503160661 / 35184372088832 := by
    rw [roundDouble_eq_of ((512 : ℚ) / 3) (-45) 6004799503160661
      (by norm_num [abs_of_pos]) (by norm_num [abs_of_pos]) (by norm_num [abs_lt])]
    norm_num
  have h4 : roundDouble ((12009599006321323 : ℚ) / 35184372088832)
      = 3002399751580331 / 8796093022208 := by
    rw [roundDouble_tie ((12009599006321323 : ℚ) / 35184372088832) (-44)
      6004799503160661 (by norm_num [abs_of_pos]) (by norm_num [abs_of_pos]) (by norm_num)]
    norm_num
  have h5 : roundDouble ((3002399751580331 : ℚ) / 17592186044416)
      = 3002399751580331 / 17592186044416 := by
    rw [roundDouble_eq_of ((3002399751580331 : ℚ) / 17592186044416) (-45) 6004799503160662
      (by norm_num [abs_of_pos]) (by norm_num [abs_of_pos]) (by norm_num [abs_lt])]
    norm_num
  unfold placementDouble
  simp only [Nat.cast_ofNat, double_three, double_one]
  norm_num [h3, h4, h5, roundDouble_zero]

theorem placementDouble_640_427 :
    (placementDouble 512 512 640 427).drawWidth = 512 ∧
    (placementDouble 512 512 640 427).drawHeight = 6009490752772505 / 17592186044416 := by
  have hr : roundDouble ((640 : ℚ) / 427) = 6750125905192313 / 4503599627370496 := by
    rw [roundDouble_eq_of ((640 : ℚ) / 427) (-52) 6750125905192313
      (by norm_num [abs_of_pos]) (by norm_num [abs_of_pos]) (by norm_num [abs_lt])]
    norm_num
  have hd : roundDouble ((2305843009213693952 : ℚ) / 6750125905192313)
      = 6009490752772505 / 17592186044416 := by
    rw [roundDouble_eq_of ((2305843009213693952 : ℚ) / 6750125905192313) (-44)
      6009490752772505 (by norm_num [abs_of_pos]) (by norm_num [abs_of_pos])
      (by norm_num [abs_lt])]
    norm_num
  unfold placementDouble
  simp only [Nat.cast_ofNat, hr, double_one]
  norm_num [hd]

theorem roundHalfEven_error (y : ℚ) : |(roundHalfEven y : ℚ) - y| ≤ 1 / 2 := by
  have h1 : (⌊y⌋ : ℚ) ≤ y := Int.floor_le y
  have h2 : y < (⌊y⌋ : ℚ) + 1 := Int.lt_floor_add_one y
  unfold roundHalfEven
  rw [abs_le]
  split_ifs <;> push_cast <;> constructor <;> linarith

theorem roundDouble_error (x : ℚ) (hx : 0 < x) : |roundDouble x - x| ≤ x / 2 ^ 53 := by
  have hp : (0 : ℚ) < (2 : ℚ) ^ (Int.log 2 x - 52) := by positivity
  have hlo : (2 : ℚ) ^ (Int.log 2 x) ≤ x := by
    exact_mod_cast Int.zpow_log_le_self (by norm_num : 1 < 2) hx
  have e1 : (2 : ℚ) ^ (Int.log 2 x) = ((2 ^ 52 : ℤ) : ℚ) * (2 : ℚ) ^ (Int.log 2 x - 52) :=
    two_zpow_split (Int.log 2 x) 52
  have hxy : x = x / (2 : ℚ) ^ (Int.log 2 x - 52) * (2 : ℚ) ^ (Int.log 2 x - 52) := by
    field_simp
  have herr := roundHalfEven_error (x / (2 : ℚ) ^ (Int.log 2 x - 52))
  have hfl : roundDouble x = (roundHalfEven (x / (2 : ℚ) ^ (Int.log 2 x - 52)) : ℚ)
      * (2 : ℚ) ^ (Int.log 2 x - 52) := by
    unfold roundDouble
    rw [if_neg (ne_of_gt hx), abs_of_pos hx]
  have hdiff : roundDouble x - x
      = ((roundHalfEven (x / (2 : ℚ) ^ (Int.log 2 x - 52)) : ℚ)
          - x / (2 : ℚ) ^ (Int.log 2 x - 52)) * (2 : ℚ) ^ (Int.log 2 x - 52) := by
    rw [hfl, sub_mul, ← hxy]
  rw [hdiff, abs_mul, abs_of_pos hp]
  have hpx : (2 : ℚ) ^ (Int.log 2 x - 52) ≤ x / 2 ^ 52 := by
    rw [le_div_iff₀ (by positivity)]
    rw [e1] at hlo
    push_cast at hlo
    linarith
  calc |(roundHalfEven (x / (2 : ℚ) ^ (Int.log 2 x - 52)) : ℚ)
          - x / (2 : ℚ) ^ (Int.log 2 x - 52)| * (2 : ℚ) ^ (Int.log 2 x - 52)
      ≤ 1 / 2 * (2 : ℚ) ^ (Int.log 2 x - 52) :=
        mul_le_mul_of_nonneg_right herr (le_of_lt hp)
    _ ≤ 1 / 2 * (x / 2 ^ 52) := by linarith
    _ = x / 2 ^ 53 := by ring

theorem roundDouble_near (x : ℚ) (hx : 0 < x) :
    x * (1 - 1 / 2 ^ 53) ≤ roundDouble x ∧ roundDouble x ≤ x * (1 + 1 / 2 ^ 53) := by
  have h := abs_le.1 (roundDouble_error x hx)
  constructor <;> linarith [h.1, h.2]

theorem products_close (P Q : ℚ) (hP : 0 ≤ P) (hQ : 0 ≤ Q)
    (h1 : P * ((1 - 1 / 2 ^ 53) * (1 - 1 / 2 ^ 53)) ≤ Q * (1 + 1 / 2 ^ 53))
    (h2 : Q * (1 - 1 / 2 ^ 53) ≤ P * ((1 + 1 / 2 ^ 53) * (1 + 1 / 2 ^ 53))) :
    |P - Q| ≤ max P Q / 2 ^ 51 := by
  have hM1 := le_max_left P Q
  have hM2 := le_max_right P Q
  rw [abs_le]
  constructor
  · have : Q - P ≤ max P Q / 2 ^ 51 := by
      norm_num at h1 h2 ⊢
      linarith
    linarith
  · norm_num at h1 h2 ⊢
    linarith

theorem placementDouble_ratio (cw ch iw ih : Nat)
    (hpos : 0 < cw ∧ 0 < ch ∧ 0 < iw ∧ 0 < ih) :
    |(placementDouble cw ch iw ih).drawWidth * (ih : ℚ)
        - (placementDouble cw ch iw ih).drawHeight * (iw : ℚ)|
      ≤ max ((placementDouble cw ch iw ih).drawWidth * (ih : ℚ))
          ((placementDouble cw ch iw ih).drawHeight * (iw : ℚ)) / 2 ^ 51 := by
  obtain ⟨hcw0, hch0, hiw0, hih0⟩ := hpos
  have hcw' : (0 : ℚ) < cw := by exact_mod_cast hcw0
  have hch' : (0 : ℚ) < ch := by exact_mod_cast hch0
  have hiw' : (0 : ℚ) < iw := by exact_mod_cast hiw0
  have hih' : (0 : ℚ) < ih := by exact_mod_cast hih0
  have hρ : (0 : ℚ) < (iw : ℚ) / ih := div_pos hiw' hih'
  have hrpos : 0 < roundDouble ((iw : ℚ) / ih) :=
    lt_of_lt_of_le (by positivity) (roundDouble_pos_bounds _ hρ).1
  have hr := roundDouble_near _ hρ
  have hρih : (iw : ℚ) / ih * ih = iw := div_mul_cancel₀ _ (ne_of_gt hih')
  -- the rounded ratio times the image height is close to the image width
  have hri1 : (iw : ℚ) * (1 - 1 / 2 ^ 53) ≤ roundDouble ((iw : ℚ) / ih) * ih := by
    have := mul_le_mul_of_nonneg_right hr.1 (le_of_lt hih')
    calc (iw : ℚ) * (1 - 1 / 2 ^ 53) = (iw : ℚ) / ih * ih * (1 - 1 / 2 ^ 53) := by rw [hρih]
      _ = (iw : ℚ) / ih * (1 - 1 / 2 ^ 53) * ih := by ring
      _ ≤ roundDouble ((iw : ℚ) / ih) * ih := this
  have hri2 : roundDouble ((iw : ℚ) / ih) * ih ≤ (iw : ℚ) * (1 + 1 / 2 ^ 53) := by
    have := mul_le_mul_of_nonneg_right hr.2 (le_of_lt hih')
    calc roundDouble ((iw : ℚ) / ih) * ih ≤ (iw : ℚ) / ih * (1 + 1 / 2 ^ 53) * ih := this
      _ = (iw : ℚ) / ih * ih * (1 + 1 / 2 ^ 53) := by ring
      _ = (iw : ℚ) * (1 + 1 / 2 ^ 53) := by rw [hρih]
  by_cases h : roundDouble ((iw : ℚ) / ih) > roundDouble ((cw : ℚ) / ch)
  · rw [placementDouble_wide cw ch iw ih h]
    simp only
    have hx : (0 : ℚ) < (cw : ℚ) / roundDouble ((iw : ℚ) / ih) := div_pos hcw' hrpos
    have hd := roundDouble_near _ hx
    have hdpos : 0 ≤ roundDouble ((cw : ℚ) / roundDouble ((iw : ℚ) / ih)) :=
      roundDouble_nonneg _ (le_of_lt hx)
    have hxr : (cw : ℚ) / roundDouble ((iw : ℚ) / ih) * roundDouble ((iw : ℚ) / ih) = cw :=
      div_mul_cancel₀ _ (ne_of_gt hrpos)
    -- the rounded height times the rounded ratio is close to the canvas width
    have hdr1 : (cw : ℚ) * (1 - 1 / 2 ^ 53)
        ≤ roundDouble ((cw : ℚ) / roundDouble ((iw : ℚ) / ih))
            * roundDouble ((iw : ℚ) / ih) := by
      have := mul_le_mul_of_nonneg_right hd.1 (le_of_lt hrpos)
      calc (cw : ℚ) * (1 - 1 / 2 ^ 53)
          = (cw : ℚ) / roundDouble ((iw : ℚ) / ih) * roundDouble ((iw : ℚ) / ih)
              * (1 - 1 / 2 ^ 53) := by rw [hxr]
        _ = (cw : ℚ) / roundDouble ((iw : ℚ) / ih) * (1 - 1 / 2 ^ 53)
              * roundDouble ((iw : ℚ) / ih) := by ring
        _ ≤ _ := this
    have hdr2 : roundDouble ((cw : ℚ) / roundDouble ((iw : ℚ) / ih))
          * roundDouble ((iw : ℚ) / ih) ≤ (cw : ℚ) * (1 + 1 / 2 ^ 53) := by
      have := mul_le_mul_of_nonneg_right hd.2 (le_of_lt hrpos)
      calc _ ≤ (cw : ℚ) / roundDouble ((iw : ℚ) / ih) * (1 + 1 / 2 ^ 53)
              * roundDouble ((iw : ℚ) / ih) := this
        _ = (cw : ℚ) / roundDouble ((iw : ℚ) / ih) * roundDouble ((iw : ℚ) / ih)
              * (1 + 1 / 2 ^ 53) := by ring
        _ = (cw : ℚ) * (1 + 1 / 2 ^ 53) := by rw [hxr]
    apply products_close _ _ (le_of_lt (mul_pos hcw' hih')) (mul_nonneg hdpos (le_of_lt hiw'))
    · -- cw * ih * (1 - δ)² ≤ dh * iw * (1 + δ)
      calc (cw : ℚ) * ih * ((1 - 1 / 2 ^ 53) * (1 - 1 / 2 ^ 53))
          = (cw : ℚ) * (1 - 1 / 2 ^ 53) * ih * (1 - 1 / 2 ^ 53) := by ring
        _ ≤ roundDouble ((cw : ℚ) / roundDouble ((iw : ℚ) / ih))
              * roundDouble ((iw : ℚ) / ih) * ih * (1 - 1 / 2 ^ 53) :=
            mul_le_mul_of_nonneg_right (mul_le_mul_of_nonneg_right hdr1 (le_of_lt hih'))
              (by norm_num)
        _ = roundDouble ((cw : ℚ) / roundDouble ((iw : ℚ) / ih))
              * (roundDouble ((iw : ℚ) / ih) * ih) * (1 - 1 / 2 ^ 53) := by ring
        _ ≤ roundDouble ((cw : ℚ) / roundDouble ((iw : ℚ) / ih))
              * ((iw : ℚ) * (1 + 1 / 2 ^ 53)) * (1 - 1 / 2 ^ 53) :=
            mul_le_mul_of_nonneg_right (mul_le_mul_of_nonneg_left hri2 hdpos) (by norm_num)
        _ = roundDouble ((cw : ℚ) / roundDouble ((iw : ℚ) / ih)) * iw
              * ((1 + 1 / 2 ^ 53) * (1 - 1 / 2 ^ 53)) := by ring
        _ ≤ roundDouble ((cw : ℚ) / roundDouble ((iw : ℚ) / ih)) * iw
              * (1 + 1 / 2 ^ 53) :=
            mul_le_mul_of_nonneg_left (by norm_num) (mul_nonneg hdpos (le_of_lt hiw'))
    · -- dh * iw * (1 - δ) ≤ cw * ih * (1 + δ)²
      calc roundDouble ((cw : ℚ) / roundDouble ((iw : ℚ) / ih)) * iw * (1 - 1 / 2 ^ 53)
          = roundDouble ((cw : ℚ) / roundDouble ((iw : ℚ) / ih))
              * ((iw : ℚ) * (1 - 1 / 2 ^ 53)) := by ring
        _ ≤ roundDouble ((cw : ℚ) / roundDouble ((iw : ℚ) / ih))
              * (roundDouble ((iw : ℚ) / ih) * ih) := mul_le_mul_of_nonneg_left hri1 hdpos
        _ = roundDouble ((cw : ℚ) / roundDouble ((iw : ℚ) / ih))
              * roundDouble ((iw : ℚ) / ih) * ih := by ring
        _ ≤ (cw : ℚ) * (1 + 1 / 2 ^ 53) * ih :=
            mul_le_mul_of_nonneg_right hdr2 (le_of_lt hih')
        _ = (cw : ℚ) * ih * (1 + 1 / 2 ^ 53) := by ring
        _ ≤ (cw : ℚ) * ih * ((1 + 1 / 2 ^ 53) * (1 + 1 / 2 ^ 53)) :=
            mul_le_mul_of_nonneg_left (by norm_num) (le_of_lt (mul_pos hcw' hih'))
  · rw [placementDouble_tall cw ch iw ih h]
    simp only
    have hx : (0 : ℚ) < (ch : ℚ) * roundDouble ((iw : ℚ) / ih) := mul_pos hch' hrpos
    have hd := roundDouble_near _ hx
    have hdpos : 0 ≤ roundDouble ((ch : ℚ) * roundDouble ((iw : ℚ) / ih)) :=
      roundDouble_nonneg _ (le_of_lt hx)
    apply products_close _ _ (mul_nonneg hdpos (le_of_lt hih')) (le_of_lt (mul_pos hch' hiw'))
    · -- dw * ih * (1 - δ)² ≤ ch * iw * (1 + δ)
      calc roundDouble ((ch : ℚ) * roundDouble ((iw : ℚ) / ih)) * ih
            * ((1 - 1 / 2 ^ 53) * (1 - 1 / 2 ^ 53))
          ≤ (ch : ℚ) * roundDouble ((iw : ℚ) / ih) * (1 + 1 / 2 ^ 53) * ih
              * ((1 - 1 / 2 ^ 53) * (1 - 1 / 2 ^ 53)) :=
            mul_le_mul_of_nonneg_right (mul_le_mul_of_nonneg_right hd.2 (le_of_lt hih'))
              (by norm_num)
        _ = (ch : ℚ) * (roundDouble ((iw : ℚ) / ih) * ih)
              * ((1 + 1 / 2 ^ 53) * ((1 - 1 / 2 ^ 53) * (1 - 1 / 2 ^ 53))) := by ring
        _ ≤ (ch : ℚ) * ((iw : ℚ) * (1 + 1 / 2 ^ 53))
              * ((1 + 1 / 2 ^ 53) * ((1 - 1 / 2 ^ 53) * (1 - 1 / 2 ^ 53))) :=
            mul_le_mul_of_nonneg_right (mul_le_mul_of_nonneg_left hri2 (le_of_lt hch'))
              (by norm_num)
        _ = (ch : ℚ) * iw * ((1 + 1 / 2 ^ 53)
              * ((1 + 1 / 2 ^ 53) * ((1 - 1 / 2 ^ 53) * (1 - 1 / 2 ^ 53)))) := by ring
        _ ≤ (ch : ℚ) * iw * (1 + 1 / 2 ^ 53) :=
            mul_le_mul_of_nonneg_left (by norm_num) (le_of_lt (mul_pos hch' hiw'))
    · -- ch * iw * (1 - δ) ≤ dw * ih * (1 + δ)²
      calc (ch : ℚ) * iw * (1 - 1 / 2 ^ 53)
          = (ch : ℚ) * ((iw : ℚ) * (1 - 1 / 2 ^ 53)) := by ring
        _ ≤ (ch : ℚ) * (roundDouble ((iw : ℚ) / ih) * ih) :=
            mul_le_mul_of_nonneg_left hri1 (le_of_lt hch')
        _ = (ch : ℚ) * roundDouble ((iw : ℚ) / ih) * ih := by ring
        _ ≤ (ch : ℚ) * roundDouble ((iw : ℚ) / ih) * ih
              * ((1 - 1 / 2 ^ 53) * ((1 + 1 / 2 ^ 53) * (1 + 1 / 2 ^ 53))) := by
            have h0 : 0 ≤ (ch : ℚ) * roundDouble ((iw : ℚ) / ih) * ih :=
              mul_nonneg (le_of_lt hx) (le_of_lt hih')
            have hc : (1 : ℚ) ≤ (1 - 1 / 2 ^ 53) * ((1 + 1 / 2 ^ 53) * (1 + 1 / 2 ^ 53)) := by
              norm_num
            calc (ch : ℚ) * roundDouble ((iw : ℚ) / ih) * ih
                = (ch : ℚ) * roundDouble ((iw : ℚ) / ih) * ih * 1 := by ring
              _ ≤ _ := mul_le_mul_of_nonneg_left hc h0
        _ = (ch : ℚ) * roundDouble ((iw : ℚ) / ih) * (1 - 1 / 2 ^ 53) * ih
              * ((1 + 1 / 2 ^ 53) * (1 + 1 / 2 ^ 53)) := by ring
        _ ≤ roundDouble ((ch : ℚ) * roundDouble ((iw : ℚ) / ih)) * ih
              * ((1 + 1 / 2 ^ 53) * (1 + 1 / 2 ^ 53)) :=
            mul_le_mul_of_nonneg_right (mul_le_mul_of_nonneg_right hd.1 (le_of_lt hih'))
              (by norm_num)

theorem placementDouble_7_25 :
    (placementDouble 7 25 7 25).drawX = -1 / 2251799813685248 ∧
    (placementDouble 7 25 7 25).drawWidth = 7881299347898369 / 1125899906842624 := by
  have hq : roundDouble ((7 : ℚ) / 25) = 1261007895663739 / 4503599627370496 := by
    rw [roundDouble_eq_of ((7 : ℚ) / 25) (-54) 5044031582654956
      (by norm_num [abs_of_pos]) (by norm_num [abs_of_pos]) (by norm_num [abs_lt])]
    norm_num
  have hw : roundDouble ((31525197391593475 : ℚ) / 4503599627370496)
      = 7881299347898369 / 1125899906842624 := by
    rw [roundDouble_eq_of ((31525197391593475 : ℚ) / 4503599627370496) (-50)
      7881299347898369 (by norm_num [abs_of_pos]) (by norm_num [abs_of_pos])
      (by norm_num [abs_lt])]
    norm_num
  have hx : roundDouble (-((1 : ℚ) / 1125899906842624)) = -(1 / 1125899906842624) := by
    rw [roundDouble_eq_of (-((1 : ℚ) / 1125899906842624)) (-102) (-4503599627370496)
      (by norm_num [abs_of_neg]) (by norm_num [abs_of_neg]) (by norm_num [abs_lt])]
    norm_num
  have hx' : roundDouble ((-1 : ℚ) / 1125899906842624) = -1 / 1125899906842624 := by
    rw [roundDouble_eq_of ((-1 : ℚ) / 1125899906842624) (-102) (-4503599627370496)
      (by norm_num [abs_of_neg]) (by norm_num [abs_of_neg]) (by norm_num [abs_lt])]
    norm_num
  have hx3 : roundDouble (-((1 : ℚ) / 2251799813685248)) = -(1 / 2251799813685248) := by
    rw [roundDouble_eq_of (-((1 : ℚ) / 2251799813685248)) (-103) (-4503599627370496)
      (by norm_num [abs_of_neg]) (by norm_num [abs_of_neg]) (by norm_num [abs_lt])]
    norm_num
  have hx2 : roundDouble ((-1 : ℚ) / 2251799813685248) = -1 / 2251799813685248 := by
    rw [roundDouble_eq_of ((-1 : ℚ) / 2251799813685248) (-103) (-4503599627370496)
      (by norm_num [abs_of_neg]) (by norm_num [abs_of_neg]) (by norm_num [abs_lt])]
    norm_num
  unfold placementDouble
  simp only [Nat.cast_ofNat, hq]
  norm_num [hw, hx, hx', hx2, hx3]

/-! ## The composite -/

theorem composite_px (R : Renderer) (s : State) (hfill : s.canvas.ctx.fillStyle.a = 255)
    (i j : Nat) (hi : i < s.canvas.width) (hj : j < s.canvas.height) :
    (composite R s).canvas.px i j = rendered R s i j := by
  unfold composite rendered
  cases hd : s.drawingCanvas with
  | none =>
    simp [Canvas.fillRect, Canvas.paint, hi, hj, R.over_solid _ _ hfill]
  | some dc =>
    cases hu : s.uploadedImage with
    | none =>
      simp [Canvas.fillRect, Canvas.paint, Canvas.drawCanvas, Canvas.asLayer, hi, hj,
        R.over_solid _ _ hfill]
    | some img =>
      by_cases hz : img.width = 0 ∨ img.height = 0
      · simp [Canvas.fillRect, Canvas.paint, Canvas.drawCanvas, Canvas.drawImage,
          Canvas.asLayer, hi, hj, hz, R.over_solid _ _ hfill]
      · simp [Canvas.fillRect, Canvas.paint, Canvas.drawCanvas, Canvas.drawImage,
          Canvas.asLayer, hi, hj, hz, R.over_solid _ _ hfill]

theorem composite_px_outside (R : Renderer) (s : State) (i j : Nat)
    (h : ¬ (i < s.canvas.width ∧ j < s.canvas.height)) :
    (composite R s).canvas.px i j = s.canvas.px i j := by
  unfold composite
  cases hd : s.drawingCanvas with
  | none => simp [Canvas.fillRect, Canvas.paint, h]
  | some dc =>
    cases hu : s.uploadedImage with
    | none => simp [Canvas.fillRect, Canvas.paint, Canvas.drawCanvas, h]
    | some img =>
      by_cases hz : img.width = 0 ∨ img.height = 0
      · simp [Canvas.fillRect, Canvas.paint, Canvas.drawCanvas, Canvas.drawImage, h, hz]
      · simp [Canvas.fillRect, Canvas.paint, Canvas.drawCanvas, Canvas.drawImage, h, hz]

theorem composite_frame (R : Renderer) (s : State) :
    (composite R s).canvas.width = s.canvas.width ∧
    (composite R s).canvas.height = s.canvas.height ∧
    (composite R s).canvas.ctx = s.canvas.ctx ∧
    (composite R s).fileInputValue = s.fileInputValue ∧
    (composite R s).drawingCanvas = s.drawingCanvas ∧
    (composite R s).color = s.color ∧
    (composite R s).brushSize = s.brushSize ∧
    (composite R s).isDrawing = s.isDrawing ∧
    (composite R s).uploadedImage = s.uploadedImage ∧
    (composite R s).pending = s.pending := by
  unfold composite
  cases hd : s.drawingCanvas with
  | none => simp [Canvas.fillRect, Canvas.paint, hd]
  | some dc =>
    cases hu : s.uploadedImage with
    | none => simp [Canvas.fillRect, Canvas.paint, Canvas.drawCanvas, hd, hu]
    | some img =>
      by_cases hz : img.width = 0 ∨ img.height = 0
      · simp [Canvas.fillRect, Canvas.paint, Canvas.drawCanvas, Canvas.drawImage, hz, hd, hu]
      · simp [Canvas.fillRect, Canvas.paint, Canvas.drawCanvas, Canvas.drawImage, hz, hd, hu]

theorem composite_width (R : Renderer) (s : State) :
    (composite R s).canvas.width = s.canvas.width := (composite_frame R s).1

theorem composite_height (R : Renderer) (s : State) :
    (composite R s).canvas.height = s.canvas.height := (composite_frame R s).2.1

theorem composite_ctx (R : Renderer) (s : State) :
    (composite R s).canvas.ctx = s.canvas.ctx := (composite_frame R s).2.2.1

theorem composite_drawingCanvas (R : Renderer) (s : State) :
    (composite R s).drawingCanvas = s.drawingCanvas := (composite_frame R s).2.2.2.2.1

theorem composite_brushSize (R : Renderer) (s : State) :
    (composite R s).brushSize = s.brushSize := (composite_frame R s).2.2.2.2.2.2.1

theorem composite_isDrawing (R : Renderer) (s : State) :
    (composite R s).isDrawing = s.isDrawing := (composite_frame R s).2.2.2.2.2.2.2.1

theorem composite_uploadedImage (R : Renderer) (s : State) :
    (composite R s).uploadedImage = s.uploadedImage := (composite_frame R s).2.2.2.2.2.2.2.2.1

theorem composite_pending (R : Renderer) (s : State) :
    (composite R s).pending = s.pending := (composite_frame R s).2.2.2.2.2.2.2.2.2

theorem rendered_congr (R : Renderer) (s t : State)
    (hf : t.canvas.ctx.fillStyle = s.canvas.ctx.fillStyle)
    (hw : t.canvas.width = s.canvas.width) (hh : t.canvas.height = s.canvas.height)
    (hd : t.drawingCanvas = s.drawingCanvas) (hu : t.uploadedImage = s.uploadedImage)
    (i j : Nat) : rendered R t i j = rendered R s i j := by
  unfold rendered
  rw [hf, hw, hh, hd, hu]

theorem rendered_composite (R : Renderer) (s : State) (i j : Nat) :
    rendered R (composite R s) i j = rendered R s i j :=
  rendered_congr R s (composite R s) (by rw [composite_ctx]) (composite_width R s)
    (composite_height R s) (composite_drawingCanvas R s) (composite_uploadedImage R s) i j

theorem composite_ready (R : Renderer) (s : State) (h : Ready s) : Ready (composite R s) :=
  ⟨by rw [composite_ctx]; exact h.fill, by rw [composite_width]; exact h.width,
    by rw [composite_height]; exact h.height, by rw [composite_drawingCanvas]; exact h.strokes,
    by rw [composite_brushSize]; exact h.brush, by rw [composite_pending]; exact h.queued⟩

theorem composite_fresh (R : Renderer) (s : State) (h : s.canvas.ctx.fillStyle.a = 255) :
    Fresh R (composite R s) := by
  intro i j hi hj
  rw [composite_width] at hi
  rw [composite_height] at hj
  rw [composite_px R s h i j hi hj, rendered_composite]

theorem ready_solid {s : State} (h : Ready s) : s.canvas.ctx.fillStyle.a = 255 := by
  rw [h.fill]
  rfl

theorem canvas_eq (c d : Canvas) (hw : c.width = d.width) (hh : c.height = d.height)
    (hc : c.ctx = d.ctx) (hp : ∀ i j, c.px i j = d.px i j) : c = d := by
  cases c
  cases d
  simp only [Canvas.mk.injEq] at *
  exact ⟨hw, hh, hc, funext fun i => funext fun j => hp i j⟩

theorem composite_fixed (R : Renderer) (s : State) (hsolid : s.canvas.ctx.fillStyle.a = 255)
    (hf : Fresh R s) : composite R s = s := by
  obtain ⟨hw, hh, hc, h1, h2, h3, h4, h5, h6, h7⟩ := composite_frame R s
  have hcanvas : (composite R s).canvas = s.canvas := by
    apply canvas_eq _ _ hw hh hc
    intro i j
    by_cases hin : i < s.canvas.width ∧ j < s.canvas.height
    · rw [composite_px R s hsolid i j hin.1 hin.2, hf i j hin.1 hin.2]
    · exact composite_px_outside R s i j hin
  generalize composite R s = t at *
  cases t
  cases s
  simp only [State.mk.injEq] at *
  exact ⟨hcanvas, h1, h2, h3, h4, h5, h6, h7⟩

theorem rendered_blank (R : Renderer) (s : State) (dc : Canvas)
    (hdc : s.drawingCanvas = some dc) (hb : dc.Blank) (hu : s.uploadedImage = none)
    (i j : Nat) : rendered R s i j = s.canvas.ctx.fillStyle := by
  have hl : dc.asLayer i j = Pixel.transparent := by
    unfold Canvas.asLayer
    by_cases hin : i < dc.width ∧ j < dc.height
    · rw [if_pos hin]
      exact hb i j hin.1 hin.2
    · rw [if_neg hin]
  simp only [rendered, hdc, hu, hl]
  exact R.over_clear _ _ rfl

theorem clearRect_blank (c : Canvas) : (c.clearRect 0 0 c.width c.height).Blank := by
  intro i j hi hj
  simp only [Canvas.clearRect] at hi hj ⊢
  simp [hi, hj]

theorem clearCompositeCanvas_px_outside (s : State) (i j : Nat)
    (h : ¬ (i < s.canvas.width ∧ j < s.canvas.height)) :
    (clearCompositeCanvas s).canvas.px i j = s.canvas.px i j := by
  simp only [clearCompositeCanvas, Canvas.clearRect]
  rw [if_neg]
  intro hc
  exact h hc.1

theorem composite_blank_white (R : Renderer) (s : State) (dc : Canvas)
    (hfill : s.canvas.ctx.fillStyle = Pixel.white) (hdc : s.drawingCanvas = some dc)
    (hb : dc.Blank) (hu : s.uploadedImage = none) : (composite R s).canvas.AllWhite := by
  intro i j hi hj
  rw [composite_width] at hi
  rw [composite_height] at hj
  have hsolid : s.canvas.ctx.fillStyle.a = 255 := by
    rw [hfill]
    rfl
  rw [composite_px R s hsolid i j hi hj, rendered_blank R s dc hdc hb hu, hfill]

theorem strokeSource_full (c : Color) (coverage : Nat) (h : 255 ≤ coverage) :
    Canvas.strokeSource c.toPixel coverage = c.toPixel := by
  simp [Canvas.strokeSource, Color.toPixel, Nat.min_eq_right h]

/-! ## The handlers -/

theorem startDrawing_spec (s : State) (rect : DOMRect) (e : MouseEvent) (dc : Canvas)
    (hdc : s.drawingCanvas = some dc) :
    startDrawing s rect e = some { s with
      drawingCanvas := some ((dc.beginPath).moveTo (e.clientX - rect.left) (e.clientY - rect.top))
      pending := { s.pending with isDrawing := some true } } := by
  simp [startDrawing, hdc]

theorem draw_spec (R : Renderer) (s : State) (rect : DOMRect) (e : MouseEvent) (dc : Canvas)
    (hdc : s.drawingCanvas = some dc) (hd : s.isDrawing = true) :
    draw R s rect e = some (composite R { s with
      drawingCanvas := some ((((((dc.lineTo (e.clientX - rect.left) (e.clientY - rect.top)
        ).setStrokeStyle s.color.toPixel).setLineWidth s.brushSize).setLineCap LineCap.round
        ).stroke R)) }) := by
  simp [draw, hdc, hd]

theorem draw_idle (R : Renderer) (s : State) (rect : DOMRect) (e : MouseEvent)
    (hd : s.isDrawing = false) : draw R s rect e = some s := by
  simp [draw, hd]

theorem clearCanvas_spec (R : Renderer) (s : State) (dc : Canvas)
    (hdc : s.drawingCanvas = some dc) :
    clearCanvas R s = some (composite R (clearCompositeCanvas { s with
      drawingCanvas := some (dc.clearRect 0 0 dc.width dc.height) })) := by
  simp [clearCanvas, hdc]

theorem stroked_frame (R : Renderer) (dc : Canvas) (x y : Int) (style : Pixel)
    (lineWidth : Nat) :
    (((((dc.lineTo x y).setStrokeStyle style).setLineWidth lineWidth).setLineCap
      LineCap.round).stroke R).width = dc.width ∧
    (((((dc.lineTo x y).setStrokeStyle style).setLineWidth lineWidth).setLineCap
      LineCap.round).stroke R).height = dc.height ∧
    (((((dc.lineTo x y).setStrokeStyle style).setLineWidth lineWidth).setLineCap
      LineCap.round).stroke R).ctx.lineJoin = dc.ctx.lineJoin ∧
    (((((dc.lineTo x y).setStrokeStyle style).setLineWidth lineWidth).setLineCap
      LineCap.round).stroke R).ctx.lineCap = LineCap.round ∧
    (((((dc.lineTo x y).setStrokeStyle style).setLineWidth lineWidth).setLineCap
      LineCap.round).stroke R).ctx.strokeStyle = style ∧
    (0 < lineWidth → (((((dc.lineTo x y).setStrokeStyle style).setLineWidth lineWidth).setLineCap
      LineCap.round).stroke R).ctx.lineWidth = lineWidth) := by
  by_cases h : 0 < lineWidth <;>
    simp [Canvas.stroke, Canvas.paint, Canvas.setLineCap, Canvas.setLineWidth,
      Canvas.setStrokeStyle, Canvas.lineTo, h]

theorem brushOption_pos (o : BrushOption) : 0 < o.value := by
  cases o <;> decide

theorem clearUploadedImage_absent (R : Renderer) (s : State) (hu : s.uploadedImage = none) :
    clearUploadedImage R s
      = setUploadedImage (composite R (clearCompositeCanvas { s with fileInputValue := "" }))
          none := by
  have e1 : (clearCompositeCanvas { s with fileInputValue := "" }).uploadedImage.isNone
      = true := by
    show s.uploadedImage.isNone = true
    rw [hu]
    rfl
  simp only [clearUploadedImage, e1, if_true]

theorem clearUploadedImage_present (R : Renderer) (s : State) (image : Image)
    (hu : s.uploadedImage = some image) :
    clearUploadedImage R s
      = setUploadedImage (clearCompositeCanvas { s with fileInputValue := "" }) none := by
  have e1 : (clearCompositeCanvas { s with fileInputValue := "" }).uploadedImage.isNone
      = false := by
    show s.uploadedImage.isNone = false
    rw [hu]
    rfl
  simp only [clearUploadedImage, e1, Bool.false_eq_true, if_false]

/-! ## Invariants of the mounted component -/

theorem mount_ready (R : Renderer) : Ready (mount R) := by
  unfold mount compositeEffect
  simp only [if_true]
  apply composite_ready
  refine ⟨?_, ?_, ?_, ?_, ?_, ?_⟩
  · simp only [composite_ctx]
    rfl
  · simp only [composite_width]
    rfl
  · simp only [composite_height]
    rfl
  · exact ⟨_, rfl, rfl, rfl, rfl⟩
  · simp only [composite_brushSize]
    decide
  · intro b hb
    simp only [composite_pending] at hb
    cases hb

theorem mount_fresh (R : Renderer) : Fresh R (mount R) := by
  unfold mount compositeEffect
  simp only [if_true]
  apply composite_fresh
  simp only [composite_ctx]
  rfl

theorem effectDue_false_getD (s : State) (h : effectDue s = false) :
    s.pending.uploadedImage.getD s.uploadedImage = s.uploadedImage := by
  unfold effectDue at h
  cases hp : s.pending.uploadedImage with
  | none => rfl
  | some v =>
    cases v with
    | none =>
      rw [hp] at h
      cases hu : s.uploadedImage with
      | none => rfl
      | some img =>
        rw [hu] at h
        cases h
    | some img =>
      rw [hp] at h
      cases h

theorem commit_ready (R : Renderer) (s : State) (h : Ready s) : Ready (commit R s) := by
  have hb : 0 < s.pending.brushSize.getD s.brushSize := by
    cases hp : s.pending.brushSize with
    | none => exact h.brush
    | some b => exact h.queued b hp
  have hr : Ready (applyQueued s) :=
    ⟨h.fill, h.width, h.height, h.strokes, hb, fun b hq => by cases hq⟩
  unfold commit compositeEffect
  cases effectDue s with
  | false => exact hr
  | true => exact composite_ready R _ hr

theorem commit_pending (R : Renderer) (s : State) : (commit R s).pending = Pending.empty := by
  unfold commit compositeEffect
  cases effectDue s with
  | false => rfl
  | true =>
    simp only [if_true]
    rw [composite_pending]
    rfl

theorem commit_fresh (R : Renderer) (s : State) (h : Ready s) (hs : Synced R s) :
    Fresh R (commit R s) := by
  unfold commit compositeEffect
  cases hd : effectDue s with
  | false =>
    simp only [Bool.false_eq_true, if_false]
    intro i j hi hj
    have hu := effectDue_false_getD s hd
    have := hs hd i j hi hj
    exact this.trans (rendered_congr R s (applyQueued s) rfl rfl rfl rfl hu i j).symm
  | true =>
    simp only [if_true]
    exact composite_fresh R _ (ready_solid h : s.canvas.ctx.fillStyle.a = 255)

theorem commit_synced (R : Renderer) (s : State) (h : Ready s) (hs : Synced R s) :
    Synced R (commit R s) := fun _ => commit_fresh R s h hs

theorem handle_ready (R : Renderer) (s t : State) (ev : Event) (h : Ready s)
    (hstep : handle R s ev = some t) : Ready t := by
  obtain ⟨dc, hdc, hdw, hdh, hdj⟩ := h.strokes
  cases ev with
  | mouseDown rect e =>
    simp only [handle, startDrawing_spec s rect e dc hdc, Option.some.injEq] at hstep
    subst hstep
    exact ⟨h.fill, h.width, h.height, ⟨_, rfl, hdw, hdh, hdj⟩, h.brush, h.queued⟩
  | mouseMove rect e =>
    cases hd : s.isDrawing with
    | false =>
      simp only [handle, draw_idle R s rect e hd, Option.some.injEq] at hstep
      subst hstep
      exact h
    | true =>
      simp only [handle, draw_spec R s rect e dc hdc hd, Option.some.injEq] at hstep
      subst hstep
      apply composite_ready
      obtain ⟨h1, h2, h3, _⟩ := stroked_frame R dc (e.clientX - rect.left)
        (e.clientY - rect.top) s.color.toPixel s.brushSize
      exact ⟨h.fill, h.width, h.height, ⟨_, rfl, h1.trans hdw, h2.trans hdh, h3.trans hdj⟩,
        h.brush, h.queued⟩
  | mouseUp =>
    simp only [handle, Option.some.injEq] at hstep
    subst hstep
    exact ⟨h.fill, h.width, h.height, h.strokes, h.brush, h.queued⟩
  | mouseOut =>
    simp only [handle, Option.some.injEq] at hstep
    subst hstep
    exact ⟨h.fill, h.width, h.height, h.strokes, h.brush, h.queued⟩
  | clickClearDrawing =>
    simp only [handle, clearCanvas_spec R s dc hdc, Option.some.injEq] at hstep
    subst hstep
    apply composite_ready
    exact ⟨h.fill, h.width, h.height, ⟨_, rfl, hdw, hdh, hdj⟩, h.brush, h.queued⟩
  | clickClearUploadedImage =>
    simp only [handle, Option.some.injEq] at hstep
    subst hstep
    have hc : Ready (clearCompositeCanvas { s with fileInputValue := "" }) :=
      ⟨h.fill, h.width, h.height, h.strokes, h.brush, h.queued⟩
    cases hu : s.uploadedImage with
    | none =>
      rw [clearUploadedImage_absent R s hu]
      have hr := composite_ready R _ hc
      exact ⟨hr.fill, hr.width, hr.height, hr.strokes, hr.brush, hr.queued⟩
    | some img =>
      rw [clearUploadedImage_present R s img hu]
      exact ⟨h.fill, h.width, h.height, h.strokes, h.brush, h.queued⟩
  | imageLoad image =>
    simp only [handle, Option.some.injEq] at hstep
    subst hstep
    exact ⟨h.fill, h.width, h.height, h.strokes, h.brush, h.queued⟩
  | changeColor color =>
    simp only [handle, Option.some.injEq] at hstep
    subst hstep
    exact ⟨h.fill, h.width, h.height, h.strokes, h.brush, h.queued⟩
  | changeBrushSize option =>
    simp only [handle, Option.some.injEq] at hstep
    subst hstep
    refine ⟨h.fill, h.width, h.height, h.strokes, h.brush, ?_⟩
    intro b hb
    simp only [setBrushSize, Option.some.injEq] at hb
    rw [← hb]
    exact brushOption_pos option

theorem handle_total (R : Renderer) (s : State) (ev : Event) (h : Ready s) :
    ∃ t, handle R s ev = some t := by
  obtain ⟨dc, hdc, _⟩ := h.strokes
  cases ev with
  | mouseDown rect e => exact ⟨_, startDrawing_spec s rect e dc hdc⟩
  | mouseMove rect e =>
    cases hd : s.isDrawing with
    | false => exact ⟨_, draw_idle R s rect e hd⟩
    | true => exact ⟨_, draw_spec R s rect e dc hdc hd⟩
  | mouseUp => exact ⟨_, rfl⟩
  | mouseOut => exact ⟨_, rfl⟩
  | clickClearDrawing => exact ⟨_, clearCanvas_spec R s dc hdc⟩
  | clickClearUploadedImage => exact ⟨_, rfl⟩
  | imageLoad image => exact ⟨_, rfl⟩
  | changeColor color => exact ⟨_, rfl⟩
  | changeBrushSize option => exact ⟨_, rfl⟩

theorem handle_synced (R : Renderer) (s t : State) (ev : Event) (h : Ready s)
    (hs : Synced R s) (hstep : handle R s ev = some t) : Synced R t := by
  obtain ⟨dc, hdc, _, _, _⟩ := h.strokes
  have hsolid := ready_solid h
  cases ev with
  | mouseDown rect e =>
    simp only [handle, startDrawing_spec s rect e dc hdc, Option.some.injEq] at hstep
    subst hstep
    intro hd i j hi hj
    have := hs hd i j hi hj
    simp only [rendered, hdc] at this ⊢
    rw [this]
    rfl
  | mouseMove rect e =>
    cases hd : s.isDrawing with
    | false =>
      simp only [handle, draw_idle R s rect e hd, Option.some.injEq] at hstep
      subst hstep
      exact hs
    | true =>
      simp only [handle, draw_spec R s rect e dc hdc hd, Option.some.injEq] at hstep
      subst hstep
      exact fun _ => composite_fresh R _ hsolid
  | mouseUp =>
    simp only [handle, Option.some.injEq] at hstep
    subst hstep
    exact hs
  | mouseOut =>
    simp only [handle, Option.some.injEq] at hstep
    subst hstep
    exact hs
  | clickClearDrawing =>
    simp only [handle, clearCanvas_spec R s dc hdc, Option.some.injEq] at hstep
    subst hstep
    exact fun _ => composite_fresh R _ hsolid
  | clickClearUploadedImage =>
    simp only [handle, Option.some.injEq] at hstep
    subst hstep
    cases hu : s.uploadedImage with
    | none =>
      rw [clearUploadedImage_absent R s hu]
      intro _ i j hi hj
      exact composite_fresh R (clearCompositeCanvas { s with fileInputValue := "" })
        hsolid i j hi hj
    | some img =>
      rw [clearUploadedImage_present R s img hu]
      intro hd
      have : effectDue (setUploadedImage (clearCompositeCanvas
          { s with fileInputValue := "" }) none) = true := by
        show (s.uploadedImage.isSome) = true
        rw [hu]
        rfl
      rw [this] at hd
      cases hd
  | imageLoad image =>
    simp only [handle, Option.some.injEq] at hstep
    subst hstep
    intro hd
    cases hd
  | changeColor color =>
    simp only [handle, Option.some.injEq] at hstep
    subst hstep
    exact hs
  | changeBrushSize option =>
    simp only [handle, Option.some.injEq] at hstep
    subst hstep
    exact hs

theorem act_ready (R : Renderer) (s t : State) (a : Action) (h : Ready s)
    (hstep : act R s a = some t) : Ready t := by
  cases a with
  | handle ev => exact handle_ready R s t ev h hstep
  | render =>
    simp only [act, Option.some.injEq] at hstep
    subst hstep
    exact commit_ready R s h

theorem act_synced (R : Renderer) (s t : State) (a : Action) (h : Ready s)
    (hs : Synced R s) (hstep : act R s a = some t) : Synced R t := by
  cases a with
  | handle ev => exact handle_synced R s t ev h hs hstep
  | render =>
    simp only [act, Option.some.injEq] at hstep
    subst hstep
    exact commit_synced R s h hs

theorem reachable_ready (R : Renderer) (s : State) (h : Reachable R s) : Ready s := by
  induction h with
  | mount => exact mount_ready R
  | step a _ next ih => exact act_ready R _ _ a ih next

theorem reachable_synced (R : Renderer) (s : State) (h : Reachable R s) : Synced R s := by
  induction h with
  | mount => exact fun _ => mount_fresh R
  | step a before next ih =>
    exact act_synced R _ _ a (reachable_ready R _ before) ih next

theorem reachable_dispatch (R : Renderer) (s t : State) (ev : Event) (h : Reachable R s)
    (hstep : dispatch R s ev = some t) : Reachable R t := by
  unfold dispatch at hstep
  cases hh : handle R s ev with
  | none =>
    rw [hh] at hstep
    cases hstep
  | some u =>
    rw [hh] at hstep
    simp only [Option.map_some', Option.some.injEq] at hstep
    subst hstep
    exact Reachable.step Action.render (Reachable.step (Action.handle ev) h hh) rfl

theorem commit_due (R : Renderer) (s : State) (h : effectDue s = true) :
    commit R s = composite R (applyQueued s) := by
  simp only [commit, compositeEffect, h, if_true]

theorem commit_idle (R : Renderer) (s : State) (h : effectDue s = false) :
    commit R s = applyQueued s := by
  simp only [commit, compositeEffect, h, Bool.false_eq_true, if_false]

theorem commit_effectDue (R : Renderer) (s : State) : effectDue (commit R s) = false := by
  unfold effectDue
  rw [commit_pending]
  rfl

theorem commit_drawingCanvas (R : Renderer) (s : State) :
    (commit R s).drawingCanvas = s.drawingCanvas := by
  cases h : effectDue s with
  | false => rw [commit_idle R s h]; rfl
  | true => rw [commit_due R s h, composite_drawingCanvas]; rfl

theorem commit_uploadedImage (R : Renderer) (s : State) :
    (commit R s).uploadedImage = s.pending.uploadedImage.getD s.uploadedImage := by
  cases h : effectDue s with
  | false => rw [commit_idle R s h]; rfl
  | true => rw [commit_due R s h, composite_uploadedImage]; rfl

theorem commit_isDrawing (R : Renderer) (s : State) :
    (commit R s).isDrawing = s.pending.isDrawing.getD s.isDrawing := by
  cases h : effectDue s with
  | false => rw [commit_idle R s h]; rfl
  | true => rw [commit_due R s h, composite_isDrawing]; rfl

theorem commit_of_empty (R : Renderer) (s : State) (h : s.pending = Pending.empty) :
    commit R s = s := by
  have hd : effectDue s = false := by
    unfold effectDue
    rw [h]
    rfl
  rw [commit_idle R s hd]
  cases s
  simp only at h
  subst h
  rfl

theorem reachable_runActions (R : Renderer) (actions : List Action) :
    ∀ (s t : State), Reachable R s → runActions R s actions = some t → Reachable R t := by
  induction actions with
  | nil =>
    intro s t h hrun
    simp only [runActions, Option.some.injEq] at hrun
    subst hrun
    exact h
  | cons a rest ih =>
    intro s t h hrun
    simp only [runActions] at hrun
    cases ha : act R s a with
    | none =>
      rw [ha] at hrun
      cases hrun
    | some u =>
      rw [ha] at hrun
      exact ih u t (Reachable.step a h ha) hrun

theorem reachable_afterActions (actions : List Action) (t : State)
    (h : runActions refRenderer (mount refRenderer) actions = some t) :
    Reachable refRenderer (afterActions actions) := by
  unfold afterActions
  rw [h]
  exact reachable_runActions refRenderer actions _ t Reachable.mount h

theorem composite_whiteOver (R : Renderer) (s : State) (dc base : Canvas)
    (hfill : s.canvas.ctx.fillStyle = Pixel.white) (hdc : s.drawingCanvas = some dc)
    (hb : dc.Blank) (hu : s.uploadedImage = none)
    (hw : s.canvas.width = base.width) (hh : s.canvas.height = base.height)
    (hc : s.canvas.ctx = base.ctx)
    (ho : ∀ i j, ¬ (i < base.width ∧ j < base.height) → s.canvas.px i j = base.px i j) :
    base.WhiteOver (composite R s).canvas := by
  refine ⟨(composite_width R s).trans hw, (composite_height R s).trans hh,
    (composite_ctx R s).trans hc, composite_blank_white R s dc hfill hdc hb hu, ?_⟩
  intro i j hin
  have hin' : ¬ (i < s.canvas.width ∧ j < s.canvas.height) := by
    rw [hw, hh]
    exact hin
  rw [composite_px_outside R s i j hin']
  exact ho i j hin

theorem whiteOver_unique (base c d : Canvas) (hc : base.WhiteOver c) (hd : base.WhiteOver d) :
    c = d := by
  obtain ⟨cw, ch, cc, cwh, co⟩ := hc
  obtain ⟨dw, dh, dcx, dwh, dout⟩ := hd
  apply canvas_eq _ _ (cw.trans dw.symm) (ch.trans dh.symm) (cc.trans dcx.symm)
  intro i j
  by_cases hin : i < base.width ∧ j < base.height
  · rw [cwh i j (cw ▸ hin.1) (ch ▸ hin.2), dwh i j (dw ▸ hin.1) (dh ▸ hin.2)]
  · rw [co i j hin, dout i j hin]

theorem placement_200_100 :
    placement 512 512 200 100
      = { drawX := 0, drawY := 128, drawWidth := 512, drawHeight := 256 } := by
  rw [placement_wide 512 512 200 100 (by norm_num)]
  norm_num

theorem rendered_corner_white (s : State)
    (hd : s.drawingCanvas = some (Canvas.create 512 512))
    (hu : s.uploadedImage = some sampleImage)
    (hf : s.canvas.ctx.fillStyle = Pixel.white)
    (hw : s.canvas.width = 512) (hh : s.canvas.height = 512) :
    rendered refRenderer s 0 0 = Pixel.white := by
  have hp : placement 512 512 sampleImage.width sampleImage.height
      = { drawX := 0, drawY := 128, drawWidth := 512, drawHeight := 256 } :=
    placement_200_100
  have hr : refResample sampleImage 0 128 512 256 0 0 = Pixel.transparent := by
    unfold refResample
    rw [if_neg]
    norm_num
  have hl : (Canvas.create 512 512).asLayer 0 0 = Pixel.transparent := by decide
  have hz : ¬ (sampleImage.width = 0 ∨ sampleImage.height = 0) := by decide
  simp only [rendered, hd, hu, hf, hw, hh, hp, hl, hz, if_false]
  show refOver Pixel.transparent (refOver (refResample sampleImage 0 128 512 256 0 0)
    Pixel.white) = Pixel.white
  rw [hr]
  decide

theorem idle_moves (R : Renderer) (moves : List (DOMRect × MouseEvent)) (t : State)
    (ht : t.isDrawing = false) :
    runActions R t (moves.map fun m => Action.handle (Event.mouseMove m.1 m.2)) = some t := by
  induction moves with
  | nil => rfl
  | cons m rest ih =>
    simp only [List.map_cons, runActions, act, handle, draw_idle R t m.1 m.2 ht]
    exact ih

theorem idle_moves_rendered (R : Renderer) (moves : List (DOMRect × MouseEvent)) (t : State)
    (ht : t.isDrawing = false) (hp : t.pending = Pending.empty) :
    runActions R t
      (moves.flatMap fun m => [Action.handle (Event.mouseMove m.1 m.2), Action.render])
      = some t := by
  induction moves with
  | nil => rfl
  | cons m rest ih =>
    rw [List.flatMap_cons]
    simp only [List.cons_append, List.nil_append, runActions, act, handle,
      draw_idle R t m.1 m.2 ht, commit_of_empty R t hp]
    exact ih

theorem nearSegment_of_cornerInBody (p q : Point) (lineWidth : Nat) (i j : Nat)
    (h : cornerInBody p q lineWidth i j = true) : nearSegment p q lineWidth i j = true := by
  simp only [cornerInBody, decide_eq_true_eq] at h
  obtain ⟨hlen, ht0, ht1, hd⟩ := h
  unfold nearSegment
  simp only
  by_cases c1 : ((i : Int) - p.x) * (q.x - p.x) + ((j : Int) - p.y) * (q.y - p.y) ≤ 0
  · rw [if_pos c1, decide_eq_true_eq]
    have ht : ((i : Int) - p.x) * (q.x - p.x) + ((j : Int) - p.y) * (q.y - p.y) = 0 :=
      le_antisymm c1 ht0
    rw [ht] at hd
    have hd' : 4 * (((i : Int) - p.x) * ((i : Int) - p.x) + ((j : Int) - p.y) * ((j : Int) - p.y))
        * ((q.x - p.x) * (q.x - p.x) + (q.y - p.y) * (q.y - p.y))
        ≤ (lineWidth : Int) * lineWidth
          * ((q.x - p.x) * (q.x - p.x) + (q.y - p.y) * (q.y - p.y)) := by
      linarith
    exact Int.le_of_mul_le_mul_right hd' hlen
  · rw [if_neg c1]
    by_cases c2 : (q.x - p.x) * (q.x - p.x) + (q.y - p.y) * (q.y - p.y)
        ≤ ((i : Int) - p.x) * (q.x - p.x) + ((j : Int) - p.y) * (q.y - p.y)
    · rw [if_pos c2, decide_eq_true_eq]
      have ht : ((i : Int) - p.x) * (q.x - p.x) + ((j : Int) - p.y) * (q.y - p.y)
          = (q.x - p.x) * (q.x - p.x) + (q.y - p.y) * (q.y - p.y) := le_antisymm ht1 c2
      rw [ht] at hd
      have hd' : 4 * (((i : Int) - q.x) * ((i : Int) - q.x) + ((j : Int) - q.y) * ((j : Int) - q.y))
          * ((q.x - p.x) * (q.x - p.x) + (q.y - p.y) * (q.y - p.y))
          ≤ (lineWidth : Int) * lineWidth
            * ((q.x - p.x) * (q.x - p.x) + (q.y - p.y) * (q.y - p.y)) := by
        have e : ((i : Int) - q.x) * ((i : Int) - q.x) + ((j : Int) - q.y) * ((j : Int) - q.y)
            = (((i : Int) - p.x) * ((i : Int) - p.x) + ((j : Int) - p.y) * ((j : Int) - p.y))
              - 2 * (((i : Int) - p.x) * (q.x - p.x) + ((j : Int) - p.y) * (q.y - p.y))
              + ((q.x - p.x) * (q.x - p.x) + (q.y - p.y) * (q.y - p.y)) := by ring
        rw [e, ht]
        linarith
      exact Int.le_of_mul_le_mul_right hd' hlen
    · rw [if_neg c2, decide_eq_true_eq]
      exact hd

theorem nearSubpath_of_segment (lineWidth : Nat) (i j : Nat) (p q : Point) :
    ∀ (sub : List Point), (p, q) ∈ segments sub → nearSegment p q lineWidth i j = true →
      nearSubpath lineWidth i j sub = true := by
  intro sub
  induction sub with
  | nil =>
    intro hm _
    simp [segments] at hm
  | cons a tl ih =>
    cases tl with
    | nil =>
      intro hm _
      simp [segments] at hm
    | cons b rest =>
      intro hm hn
      simp only [segments, List.mem_cons, Prod.mk.injEq] at hm
      simp only [nearSubpath, Bool.or_eq_true]
      rcases hm with ⟨hp, hq⟩ | hm
      · left
        rw [← hp, ← hq]
        exact hn
      · right
        exact ih hm hn

theorem refRenderer_coversBody : refRenderer.CoversBody := by
  intro path lineWidth cap join sub p q i j hsub hseg hbody
  have hc : cornerInBody p q lineWidth i j = true := by
    simp only [inBody, Bool.and_eq_true] at hbody
    exact hbody.1.1.1
  have hn := nearSubpath_of_segment lineWidth i j p q sub hseg
    (nearSegment_of_cornerInBody p q lineWidth i j hc)
  show refCoverage path lineWidth cap join i j = 255
  unfold refCoverage
  rw [if_pos]
  exact List.any_eq_true.2 ⟨sub, hsub, hn⟩

theorem composite_color (R : Renderer) (s : State) :
    (composite R s).color = s.color := (composite_frame R s).2.2.2.2.2.1

theorem commit_eq_applyQueued (R : Renderer) (s : State)
    (h : s.pending.uploadedImage = none) : commit R s = applyQueued s := by
  apply commit_idle
  unfold effectDue
  rw [h]

/-! ## The claims -/

/-- C1 as stated fails: on the mounted component an image is uploaded and
rendered, then the handler `clearUploadedImage` runs.  It leaves pixel (0,0)
of the visible canvas transparent, while `composite` gives white there, with
the image still rendered and with the background absent alike. -/
theorem clearUploadedImage_leaves_canvas_cleared :
    runActions refRenderer (mount refRenderer)
        [Action.handle (Event.imageLoad sampleImage), Action.render,
          Action.handle Event.clickClearUploadedImage]
      = some (afterActions [Action.handle (Event.imageLoad sampleImage), Action.render,
          Action.handle Event.clickClearUploadedImage]) ∧
    (afterActions [Action.handle (Event.imageLoad sampleImage), Action.render,
      Action.handle Event.clickClearUploadedImage]).canvas.px 0 0 = Pixel.transparent ∧
    (composite refRenderer (afterActions [Action.handle (Event.imageLoad sampleImage),
      Action.render, Action.handle Event.clickClearUploadedImage])).canvas.px 0 0
        = Pixel.white ∧
    (composite refRenderer { afterActions [Action.handle (Event.imageLoad sampleImage),
      Action.render, Action.handle Event.clickClearUploadedImage] with
        uploadedImage := none }).canvas.px 0 0 = Pixel.white := by
  refine ⟨rfl, by decide, ?_, by decide⟩
  rw [composite_px refRenderer _ rfl 0 0 (by decide) (by decide)]
  exact rendered_corner_white _ rfl rfl rfl rfl rfl

/-- C1, amended: in every state the mounted component reaches through its
handlers and renders, in any order, in which no composite effect is due (the
queued `uploadedImage` does not differ from the rendered one), the visible
canvas is up to date: `composite` leaves the state as it is, and each pixel of
the visible canvas is the pixel `composite` computes from the current
background image and stroke canvas, whatever the visible canvas held before.
Every event followed by its render ends in such a state. -/
theorem visible_is_composite (R : Renderer) (s : State) (h : Reachable R s)
    (hd : effectDue s = false) :
    composite R s = s ∧
    (∀ (prior : Nat → Nat → Pixel) (i j : Nat), i < s.canvas.width → j < s.canvas.height →
      s.canvas.px i j = (composite R (s.withPixels prior)).canvas.px i j) ∧
    ∀ (ev : Event) (t : State), dispatch R s ev = some t →
      Reachable R t ∧ effectDue t = false := by
  have hr := reachable_ready R s h
  have hf := reachable_synced R s h hd
  refine ⟨composite_fixed R s (ready_solid hr) hf, ?_, ?_⟩
  · intro prior i j hi hj
    have hsolid : (s.withPixels prior).canvas.ctx.fillStyle.a = 255 :=
      (ready_solid hr : s.canvas.ctx.fillStyle.a = 255)
    rw [composite_px R (s.withPixels prior) hsolid i j hi hj, hf i j hi hj]
    exact (rendered_congr R s (s.withPixels prior) rfl rfl rfl rfl rfl i j).symm
  · intro ev t hstep
    refine ⟨reachable_dispatch R s t ev h hstep, ?_⟩
    unfold dispatch at hstep
    cases hh : handle R s ev with
    | none =>
      rw [hh] at hstep
      cases hstep
    | some u =>
      rw [hh] at hstep
      simp only [Option.map_some', Option.some.injEq] at hstep
      subst hstep
      exact commit_effectDue R u

theorem visible_is_composite_witness :
    Reachable refRenderer (afterActions strokeDemo) ∧
    effectDue (afterActions strokeDemo) = false ∧
    composite refRenderer (afterActions strokeDemo) = afterActions strokeDemo :=
  ⟨reachable_afterActions _ _ rfl, rfl,
    (visible_is_composite refRenderer (afterActions strokeDemo)
      (reachable_afterActions _ _ rfl) rfl).1⟩

/-- C2: for a canvas and a background image with positive dimensions,
`composite` fills the canvas, draws the image into the rectangle of the
specification (the canvas width and height `drawWidth / r_img` for a relatively
wider image, else the canvas height and width `drawHeight * r_img`, centred)
and then draws the stroke canvas; a 200x100 image on a 512x512 canvas goes to
`(0, 128, 512, 256)` and a 100x200 image to `(128, 0, 256, 512)`. -/
theorem composite_places_background (R : Renderer) (s : State) (image : Image) (dc : Canvas)
    (hu : s.uploadedImage = some image) (hdc : s.drawingCanvas = some dc)
    (hpos : 0 < s.canvas.width ∧ 0 < s.canvas.height ∧ 0 < image.width ∧ 0 < image.height) :
    placement s.canvas.width s.canvas.height image.width image.height
      = specPlacement s.canvas.width s.canvas.height image.width image.height ∧
    (composite R s).canvas
      = (((s.canvas.fillRect R 0 0 s.canvas.width s.canvas.height).paint R
          (R.resample image
            (specPlacement s.canvas.width s.canvas.height image.width image.height).drawX
            (specPlacement s.canvas.width s.canvas.height image.width image.height).drawY
            (specPlacement s.canvas.width s.canvas.height image.width image.height).drawWidth
            (specPlacement s.canvas.width s.canvas.height image.width image.height).drawHeight)
          ).drawCanvas R dc 0 0) ∧
    placement 512 512 200 100
      = { drawX := 0, drawY := 128, drawWidth := 512, drawHeight := 256 } ∧
    placement 512 512 100 200
      = { drawX := 128, drawY := 0, drawWidth := 256, drawHeight := 512 } := by
  obtain ⟨_, _, hiw, hih⟩ := hpos
  have hz : ¬ (image.width = 0 ∨ image.height = 0) := by omega
  refine ⟨placement_eq_specPlacement _ _ _ _, ?_, ?_, ?_⟩
  · rw [← placement_eq_specPlacement]
    simp only [composite, hdc, hu, Canvas.drawImage, hz, if_false]
  · rw [placement_wide 512 512 200 100 (by norm_num)]
    norm_num
  · rw [placement_tall 512 512 100 200 (by norm_num)]
    norm_num

theorem composite_places_background_witness :
    (0 < (afterActions uploadDemo).canvas.width ∧ 0 < (afterActions uploadDemo).canvas.height ∧
      0 < sampleImage.width ∧ 0 < sampleImage.height) ∧
    placement 512 512 200 100
      = { drawX := 0, drawY := 128, drawWidth := 512, drawHeight := 256 } :=
  ⟨by decide,
    (composite_places_background refRenderer (afterActions uploadDemo) sampleImage
      (Canvas.create 512 512) rfl rfl (by decide)).2.2.1⟩

/-- C3 as stated fails in the arithmetic of the code: for a 300x100 image on
the 512x512 canvas the binary64 computation gives `drawY` =
170.66666666666669 and `drawHeight` = 170.66666666666666, so the top margin
`drawY` differs from the bottom margin `512 - (drawY + drawHeight)`. -/
theorem double_margins_differ :
    (placementDouble 512 512 300 100).drawY = 3002399751580331 / 17592186044416 ∧
    (placementDouble 512 512 300 100).drawHeight = 6004799503160661 / 35184372088832 ∧
    (placementDouble 512 512 300 100).drawY
      ≠ 512 - ((placementDouble 512 512 300 100).drawY
          + (placementDouble 512 512 300 100).drawHeight) := by
  rw [placementDouble_300_100]
  norm_num

/-- C3, amended: in exact rational arithmetic, for a canvas and a background
image with positive dimensions, the rectangle `composite` draws the
background into lies within the canvas, has equal margins left and right and
equal margins top and bottom, and touches the canvas on at least one axis
(`drawX = 0` or `drawY = 0`).  In the binary64 arithmetic of the code the
rectangle still spans the canvas exactly on one axis (`drawX = 0` with
`drawWidth` the canvas width, or `drawY = 0` with `drawHeight` the canvas
height), and it lies within the canvas when the canvas sizes are below
`2 ^ 53` and the canvas aspect ratio is a binary64 value, as for the 512x512
canvas of the component. -/
theorem placement_within_canvas (cw ch iw ih : Nat)
    (hpos : 0 < cw ∧ 0 < ch ∧ 0 < iw ∧ 0 < ih) :
    (0 ≤ (placement cw ch iw ih).drawX ∧ 0 ≤ (placement cw ch iw ih).drawY ∧
    (placement cw ch iw ih).drawX + (placement cw ch iw ih).drawWidth ≤ (cw : ℚ) ∧
    (placement cw ch iw ih).drawY + (placement cw ch iw ih).drawHeight ≤ (ch : ℚ) ∧
    (placement cw ch iw ih).drawX
      = (cw : ℚ) - ((placement cw ch iw ih).drawX + (placement cw ch iw ih).drawWidth) ∧
    (placement cw ch iw ih).drawY
      = (ch : ℚ) - ((placement cw ch iw ih).drawY + (placement cw ch iw ih).drawHeight) ∧
    ((placement cw ch iw ih).drawX = 0 ∨ (placement cw ch iw ih).drawY = 0)) ∧
    (((placementDouble cw ch iw ih).drawX = 0 ∧
        (placementDouble cw ch iw ih).drawWidth = (cw : ℚ)) ∨
      ((placementDouble cw ch iw ih).drawY = 0 ∧
        (placementDouble cw ch iw ih).drawHeight = (ch : ℚ))) ∧
    (cw < 2 ^ 53 → ch < 2 ^ 53 → roundDouble ((cw : ℚ) / ch) = (cw : ℚ) / ch →
      0 ≤ (placementDouble cw ch iw ih).drawX ∧ 0 ≤ (placementDouble cw ch iw ih).drawY ∧
      (placementDouble cw ch iw ih).drawX + (placementDouble cw ch iw ih).drawWidth
        ≤ (cw : ℚ) ∧
      (placementDouble cw ch iw ih).drawY + (placementDouble cw ch iw ih).drawHeight
        ≤ (ch : ℚ)) := by
  refine ⟨?_, placementDouble_spans cw ch iw ih,
    fun hcw hch hq => placementDouble_within cw ch iw ih hpos hcw hch hq⟩
  obtain ⟨_, hch, hiw, hih⟩ := hpos
  have hch' : (0 : ℚ) < ch := by exact_mod_cast hch
  have hiw' : (0 : ℚ) < iw := by exact_mod_cast hiw
  have hih' : (0 : ℚ) < ih := by exact_mod_cast hih
  by_cases h : (iw : ℚ) / ih > (cw : ℚ) / ch
  · have hle := wide_height_le cw ch iw ih hch' hiw' hih' h
    rw [placement_wide cw ch iw ih h]
    refine ⟨le_refl _, ?_, ?_, ?_, ?_, ?_, Or.inl rfl⟩ <;> simp only <;> linarith
  · have hle := tall_width_le cw ch iw ih hch' hih' h
    rw [placement_tall cw ch iw ih h]
    refine ⟨?_, le_refl _, ?_, ?_, ?_, ?_, Or.inr rfl⟩ <;> simp only <;> linarith

theorem placement_within_canvas_witness :
    (0 < 512 ∧ 0 < 512 ∧ 0 < 300 ∧ 0 < 100) ∧
    (placement 512 512 300 100).drawY
      = ((512 : Nat) : ℚ) - ((placement 512 512 300 100).drawY
          + (placement 512 512 300 100).drawHeight) ∧
    (placementDouble 512 512 300 100).drawY + (placementDouble 512 512 300 100).drawHeight
      ≤ ((512 : Nat) : ℚ) :=
  ⟨by decide, (placement_within_canvas 512 512 300 100 (by decide)).1.2.2.2.2.2.1,
    ((placement_within_canvas 512 512 300 100 (by decide)).2.2 (by norm_num) (by norm_num)
      (by simpa using double_one)).2.2.2⟩

/-- C4 as stated fails in the arithmetic of the code: for a 640x427 image on
the 512x512 canvas the binary64 computation gives `drawWidth` = 512 and
`drawHeight` = 341.59999999999997, and `drawWidth * 427` differs from
`drawHeight * 640`. -/
theorem double_ratio_differs :
    (placementDouble 512 512 640 427).drawWidth = 512 ∧
    (placementDouble 512 512 640 427).drawHeight = 6009490752772505 / 17592186044416 ∧
    (placementDouble 512 512 640 427).drawWidth * 427
      ≠ (placementDouble 512 512 640 427).drawHeight * 640 := by
  obtain ⟨hw, hh⟩ := placementDouble_640_427
  refine ⟨hw, hh, ?_⟩
  rw [hw, hh]
  norm_num

/-- C4, amended: in exact rational arithmetic, for a canvas and a background
image with positive dimensions, the rectangle `composite` draws the
background into has the aspect ratio of the image, spans the canvas width or
the canvas height, and no rectangle of that aspect ratio that fits in the
canvas is wider.  In the binary64 arithmetic of the code the rectangle still
spans the canvas width or the canvas height exactly, and the aspect ratio is
kept up to rounding: `drawWidth * imgHeight` and `drawHeight * imgWidth`
differ by at most `2 ^ -51` times the larger of the two. -/
theorem placement_largest_fit (cw ch iw ih : Nat)
    (hpos : 0 < cw ∧ 0 < ch ∧ 0 < iw ∧ 0 < ih) :
    ((placement cw ch iw ih).drawWidth * (ih : ℚ)
      = (placement cw ch iw ih).drawHeight * (iw : ℚ) ∧
    ((placement cw ch iw ih).drawWidth = (cw : ℚ) ∨
      (placement cw ch iw ih).drawHeight = (ch : ℚ)) ∧
    ∀ w h : ℚ, w * (ih : ℚ) = h * (iw : ℚ) → w ≤ (cw : ℚ) → h ≤ (ch : ℚ) →
      w ≤ (placement cw ch iw ih).drawWidth) ∧
    ((placementDouble cw ch iw ih).drawWidth = (cw : ℚ) ∨
      (placementDouble cw ch iw ih).drawHeight = (ch : ℚ)) ∧
    |(placementDouble cw ch iw ih).drawWidth * (ih : ℚ)
        - (placementDouble cw ch iw ih).drawHeight * (iw : ℚ)|
      ≤ max ((placementDouble cw ch iw ih).drawWidth * (ih : ℚ))
          ((placementDouble cw ch iw ih).drawHeight * (iw : ℚ)) / 2 ^ 51 := by
  refine ⟨?_, (placementDouble_spans cw ch iw ih).imp (fun h => h.2) (fun h => h.2),
    placementDouble_ratio cw ch iw ih hpos⟩
  obtain ⟨_, _, hiw, hih⟩ := hpos
  have hiw' : (0 : ℚ) < iw := by exact_mod_cast hiw
  have hih' : (0 : ℚ) < ih := by exact_mod_cast hih
  by_cases hc : (iw : ℚ) / ih > (cw : ℚ) / ch
  · rw [placement_wide cw ch iw ih hc]
    refine ⟨?_, Or.inl rfl, ?_⟩
    · simp only
      field_simp
    · intro w h _ hw _
      exact hw
  · rw [placement_tall cw ch iw ih hc]
    refine ⟨?_, Or.inr rfl, ?_⟩
    · simp only
      field_simp
    · intro w h hwh _ hh
      simp only
      have hw : w = h * ((iw : ℚ) / ih) := by
        field_simp
        exact hwh
      rw [hw]
      exact mul_le_mul_of_nonneg_right hh (le_of_lt (div_pos hiw' hih'))

theorem placement_largest_fit_witness :
    (0 < 512 ∧ 0 < 512 ∧ 0 < 640 ∧ 0 < 427) ∧
    (placement 512 512 640 427).drawWidth * ((427 : Nat) : ℚ)
      = (placement 512 512 640 427).drawHeight * ((640 : Nat) : ℚ) ∧
    ((placementDouble 512 512 640 427).drawWidth = ((512 : Nat) : ℚ) ∨
      (placementDouble 512 512 640 427).drawHeight = ((512 : Nat) : ℚ)) :=
  ⟨by decide, (placement_largest_fit 512 512 640 427 (by decide)).1.1,
    (placement_largest_fit 512 512 640 427 (by decide)).2.1⟩

/-- C5: `composite` is idempotent.  For every background (present or absent),
every stroke canvas and every content of the visible canvas, with the fully
covering fill style the component keeps on the visible context, a second call
changes nothing, and the pixels after a call do not depend on what the visible
canvas held before. -/
theorem composite_idempotent (R : Renderer) (s : State)
    (hfill : s.canvas.ctx.fillStyle.a = 255) :
    composite R (composite R s) = composite R s ∧
    ∀ (prior : Nat → Nat → Pixel) (i j : Nat), i < s.canvas.width → j < s.canvas.height →
      (composite R (s.withPixels prior)).canvas.px i j = (composite R s).canvas.px i j := by
  constructor
  · apply composite_fixed R _ _ (composite_fresh R s hfill)
    rw [composite_ctx]
    exact hfill
  · intro prior i j hi hj
    rw [composite_px R (s.withPixels prior) hfill i j hi hj, composite_px R s hfill i j hi hj]
    exact rendered_congr R s (s.withPixels prior) rfl rfl rfl rfl rfl i j

theorem composite_idempotent_witness :
    (mount refRenderer).canvas.ctx.fillStyle.a = 255 ∧
    composite refRenderer (composite refRenderer (mount refRenderer))
      = composite refRenderer (mount refRenderer) :=
  ⟨rfl, (composite_idempotent refRenderer (mount refRenderer) rfl).1⟩

/-- C6 as stated fails: pointer down at (10,10), a black segment to (50,10),
then a change of colour to red and a segment to (50,50).  Pixel (30,10), in
the middle of the first segment, is black after the first `draw` and red
after the second. -/
theorem first_segment_recolored :
    ∃ t1 t2 d1 d2,
      run refRenderer (mount refRenderer)
        [Event.mouseDown ⟨0, 0⟩ ⟨10, 10⟩, Event.mouseMove ⟨0, 0⟩ ⟨50, 10⟩] = some t1 ∧
      t1.drawingCanvas = some d1 ∧
      run refRenderer t1
        [Event.changeColor ⟨255, 0, 0⟩, Event.mouseMove ⟨0, 0⟩ ⟨50, 50⟩] = some t2 ∧
      t2.drawingCanvas = some d2 ∧
      d1.px 30 10 = ⟨0, 0, 0, 255⟩ ∧ d2.px 30 10 = ⟨255, 0, 0, 255⟩ :=
  ⟨_, _, _, _, rfl, rfl, rfl, rfl, by decide, by decide⟩

/-- C6, amended: in one session, every event rendered before the next
(pointer down at `p0`, `draw` to `p1` with colour `c1`, `draw` to `p2` with
colour `c2`), both calls succeed.  The first strokes the path `p0, p1` with
`c1`.  The second strokes the whole current path `p0, p1, p2` with `c2` over
the result of the first.  With a backend whose stroke covers the body of each
segment of its path, every pixel in the body of the first segment `p0, p1`
has colour `c1` after the first call and colour `c2` after the second; so has
every pixel the second stroke covers fully. -/
theorem second_draw_repaints_path (R : Renderer) (hR : R.CoversBody) (s : State)
    (h : Reachable R s) (hs : s.pending = Pending.empty)
    (rect : DOMRect) (e0 e1 e2 : MouseEvent) (c1 c2 : Color) :
    ∃ t1 t2 d1 d2,
      run R s [Event.mouseDown rect e0, Event.changeColor c1, Event.mouseMove rect e1]
        = some t1 ∧
      t1.drawingCanvas = some d1 ∧
      run R t1 [Event.changeColor c2, Event.mouseMove rect e2] = some t2 ∧
      t2.drawingCanvas = some d2 ∧
      d1.ctx.path = [[⟨e0.clientX - rect.left, e0.clientY - rect.top⟩,
        ⟨e1.clientX - rect.left, e1.clientY - rect.top⟩]] ∧
      d2.ctx.path = [[⟨e0.clientX - rect.left, e0.clientY - rect.top⟩,
        ⟨e1.clientX - rect.left, e1.clientY - rect.top⟩,
        ⟨e2.clientX - rect.left, e2.clientY - rect.top⟩]] ∧
      d2.width = d1.width ∧ d2.height = d1.height ∧
      ∀ i j, i < d2.width → j < d2.height →
        (inBody ⟨e0.clientX - rect.left, e0.clientY - rect.top⟩
            ⟨e1.clientX - rect.left, e1.clientY - rect.top⟩ s.brushSize i j = true →
          d1.px i j = c1.toPixel ∧ d2.px i j = c2.toPixel) ∧
        d2.px i j = R.over (Canvas.strokeSource c2.toPixel (R.strokeCoverage d2.ctx.path
          s.brushSize LineCap.round LineJoin.miter i j)) (d1.px i j) ∧
        (255 ≤ R.strokeCoverage d2.ctx.path s.brushSize LineCap.round LineJoin.miter i j →
          d2.px i j = c2.toPixel) := by
  have hr := reachable_ready R s h
  obtain ⟨dc, hdc, _, _, hj⟩ := hr.strokes
  have hb := hr.brush
  obtain ⟨canvas, fileInputValue, drawingCanvas, color, brushSize, isDrawing, uploadedImage,
    pending⟩ := s
  simp only at hdc hb hs
  subst hdc
  subst hs
  have cov1 := fun (i j : Nat) (hbody : inBody ⟨e0.clientX - rect.left, e0.clientY - rect.top⟩
      ⟨e1.clientX - rect.left, e1.clientY - rect.top⟩ brushSize i j = true) =>
    hR [[⟨e0.clientX - rect.left, e0.clientY - rect.top⟩,
      ⟨e1.clientX - rect.left, e1.clientY - rect.top⟩]] brushSize LineCap.round LineJoin.miter
      _ _ _ i j (List.mem_singleton.2 rfl) (List.mem_cons_self _ _) hbody
  have cov2 := fun (i j : Nat) (hbody : inBody ⟨e0.clientX - rect.left, e0.clientY - rect.top⟩
      ⟨e1.clientX - rect.left, e1.clientY - rect.top⟩ brushSize i j = true) =>
    hR [[⟨e0.clientX - rect.left, e0.clientY - rect.top⟩,
      ⟨e1.clientX - rect.left, e1.clientY - rect.top⟩,
      ⟨e2.clientX - rect.left, e2.clientY - rect.top⟩]] brushSize LineCap.round LineJoin.miter
      _ _ _ i j (List.mem_singleton.2 rfl) (List.mem_cons_self _ _) hbody
  refine ⟨_, _, _, _, rfl, rfl, rfl, rfl, ?_, ?_, ?_, ?_, ?_⟩
  · simp [Canvas.stroke, Canvas.paint, Canvas.setLineCap, Canvas.setLineWidth,
      Canvas.setStrokeStyle, Canvas.lineTo, Canvas.moveTo, Canvas.beginPath,
      Canvas.extendPath, hb, applyQueued, setColor, Pending.empty, commit_eq_applyQueued,
      composite_pending, composite_color, composite_brushSize, composite_drawingCanvas,
      composite_isDrawing]
  · simp [Canvas.stroke, Canvas.paint, Canvas.setLineCap, Canvas.setLineWidth,
      Canvas.setStrokeStyle, Canvas.lineTo, Canvas.moveTo, Canvas.beginPath,
      Canvas.extendPath, hb, applyQueued, setColor, Pending.empty, commit_eq_applyQueued,
      composite_pending, composite_color, composite_brushSize, composite_drawingCanvas,
      composite_isDrawing]
  · simp [Canvas.stroke, Canvas.paint, Canvas.setLineCap, Canvas.setLineWidth,
      Canvas.setStrokeStyle, Canvas.lineTo, Canvas.moveTo, Canvas.beginPath,
      Canvas.extendPath, hb, applyQueued, setColor, Pending.empty, commit_eq_applyQueued,
      composite_pending, composite_color, composite_brushSize, composite_drawingCanvas,
      composite_isDrawing]
  · simp [Canvas.stroke, Canvas.paint, Canvas.setLineCap, Canvas.setLineWidth,
      Canvas.setStrokeStyle, Canvas.lineTo, Canvas.moveTo, Canvas.beginPath,
      Canvas.extendPath, hb, applyQueued, setColor, Pending.empty, commit_eq_applyQueued,
      composite_pending, composite_color, composite_brushSize, composite_drawingCanvas,
      composite_isDrawing]
  · intro i j hi hj'
    simp only [Canvas.stroke, Canvas.paint, Canvas.setLineCap, Canvas.setLineWidth,
      Canvas.setStrokeStyle, Canvas.lineTo, Canvas.moveTo, Canvas.beginPath,
      Canvas.extendPath, hb, if_true, List.nil_append, applyQueued, setColor, Pending.empty,
      Option.getD_some, Option.getD_none, commit_eq_applyQueued, composite_pending,
      composite_color, composite_brushSize, composite_drawingCanvas,
      composite_isDrawing] at hi hj' ⊢
    simp only [hi, hj', and_self, if_true, hj, List.append_assoc, List.cons_append,
      List.nil_append]
    refine ⟨?_, trivial, ?_⟩
    · intro hbody
      rw [cov1 i j hbody, cov2 i j hbody, strokeSource_full c1 255 (le_refl _),
        strokeSource_full c2 255 (le_refl _)]
      exact ⟨R.over_solid _ _ rfl, R.over_solid _ _ rfl⟩
    · intro hcov
      rw [strokeSource_full c2 _ hcov]
      exact R.over_solid _ _ rfl

theorem second_draw_repaints_path_witness :
    refRenderer.CoversBody ∧ Reachable refRenderer (mount refRenderer) ∧
    (mount refRenderer).pending = Pending.empty ∧
    inBody ⟨10 - 0, 10 - 0⟩ ⟨50 - 0, 10 - 0⟩ (mount refRenderer).brushSize 30 10 = true ∧
    ∃ t1 t2 d1 d2,
      run refRenderer (mount refRenderer)
        [Event.mouseDown ⟨0, 0⟩ ⟨10, 10⟩, Event.changeColor ⟨0, 0, 0⟩,
          Event.mouseMove ⟨0, 0⟩ ⟨50, 10⟩] = some t1 ∧
      t1.drawingCanvas = some d1 ∧
      run refRenderer t1 [Event.changeColor ⟨255, 0, 0⟩, Event.mouseMove ⟨0, 0⟩ ⟨50, 50⟩]
        = some t2 ∧
      t2.drawingCanvas = some d2 ∧
      d1.ctx.path = [[⟨10 - 0, 10 - 0⟩, ⟨50 - 0, 10 - 0⟩]] ∧
      d2.ctx.path = [[⟨10 - 0, 10 - 0⟩, ⟨50 - 0, 10 - 0⟩, ⟨50 - 0, 50 - 0⟩]] ∧
      d2.width = d1.width ∧ d2.height = d1.height ∧
      ∀ i j, i < d2.width → j < d2.height →
        (inBody ⟨10 - 0, 10 - 0⟩ ⟨50 - 0, 10 - 0⟩ (mount refRenderer).brushSize i j = true →
          d1.px i j = (⟨0, 0, 0⟩ : Color).toPixel ∧
          d2.px i j = (⟨255, 0, 0⟩ : Color).toPixel) ∧
        d2.px i j = refRenderer.over (Canvas.strokeSource (⟨255, 0, 0⟩ : Color).toPixel
          (refRenderer.strokeCoverage d2.ctx.path (mount refRenderer).brushSize
            LineCap.round LineJoin.miter i j)) (d1.px i j) ∧
        (255 ≤ refRenderer.strokeCoverage d2.ctx.path (mount refRenderer).brushSize
            LineCap.round LineJoin.miter i j →
          d2.px i j = (⟨255, 0, 0⟩ : Color).toPixel) :=
  ⟨refRenderer_coversBody, Reachable.mount, rfl, by decide,
    second_draw_repaints_path refRenderer refRenderer_coversBody (mount refRenderer)
      Reachable.mount rfl ⟨0, 0⟩ ⟨10, 10⟩ ⟨50, 10⟩ ⟨50, 50⟩ ⟨0, 0, 0⟩ ⟨255, 0, 0⟩⟩

/-- C7 as stated fails in its second sentence: after pointer down at (10,10)
and its render, pointer out runs `stopDrawing`, and a pointer move to (50,10)
handled before the next render still sees `isDrawing` true: it adds the
segment to the path and paints pixel (30,10) of the stroke canvas. -/
theorem move_after_mouseOut_draws :
    ∃ t0 t d0 d,
      runActions refRenderer (mount refRenderer)
        [Action.handle (Event.mouseDown ⟨0, 0⟩ ⟨10, 10⟩), Action.render,
          Action.handle Event.mouseOut] = some t0 ∧
      t0.drawingCanvas = some d0 ∧
      act refRenderer t0 (Action.handle (Event.mouseMove ⟨0, 0⟩ ⟨50, 10⟩)) = some t ∧
      t.drawingCanvas = some d ∧
      d0.ctx.path = [[⟨10, 10⟩]] ∧ d.ctx.path = [[⟨10, 10⟩, ⟨50, 10⟩]] ∧
      d0.px 30 10 = Pixel.transparent ∧ d.px 30 10 = ⟨0, 0, 0, 255⟩ :=
  ⟨_, _, _, _, rfl, rfl, rfl, rfl, rfl, rfl, by decide, by decide⟩

/-- C7, amended: while the rendered `isDrawing` is false, `draw` succeeds and
returns the state it was given (stroke bitmap, current path, visible bitmap
and the `isDrawing` flag included), for one pointer move and for any sequence
of them.  Pointer up and pointer out run `stopDrawing`; once that update is
rendered, `isDrawing` is false and pointer moves and further renders add
nothing. -/
theorem draw_idle_noop (R : Renderer) (s : State) (h : s.isDrawing = false)
    (rect : DOMRect) (e : MouseEvent) (moves : List (DOMRect × MouseEvent)) (s0 : State) :
    draw R s rect e = some s ∧
    runActions R s (moves.map fun m => Action.handle (Event.mouseMove m.1 m.2)) = some s ∧
    dispatch R s0 Event.mouseUp = some (commit R (stopDrawing s0)) ∧
    dispatch R s0 Event.mouseOut = some (commit R (stopDrawing s0)) ∧
    (commit R (stopDrawing s0)).isDrawing = false ∧
    runActions R (commit R (stopDrawing s0))
      (moves.flatMap fun m => [Action.handle (Event.mouseMove m.1 m.2), Action.render])
      = some (commit R (stopDrawing s0)) := by
  have hidle : (commit R (stopDrawing s0)).isDrawing = false := by
    rw [commit_isDrawing]
    rfl
  exact ⟨draw_idle R s rect e h, idle_moves R moves s h, rfl, rfl, hidle,
    idle_moves_rendered R moves _ hidle (commit_pending R _)⟩

theorem draw_idle_noop_witness :
    (mount refRenderer).isDrawing = false ∧
    draw refRenderer (mount refRenderer) ⟨8, 8⟩ ⟨50, 50⟩ = some (mount refRenderer) ∧
    (commit refRenderer (stopDrawing (afterActions strokeDemo))).isDrawing = false :=
  ⟨rfl, (draw_idle_noop refRenderer (mount refRenderer) rfl ⟨8, 8⟩ ⟨50, 50⟩ []
      (afterActions strokeDemo)).1,
    (draw_idle_noop refRenderer (mount refRenderer) rfl ⟨8, 8⟩ ⟨50, 50⟩ []
      (afterActions strokeDemo)).2.2.2.2.1⟩

/-- C8: in every reachable state without a background image, `clearCanvas`
succeeds, leaves every pixel of the stroke canvas transparent and every pixel
of the visible canvas white and fully covering; the fill style of the visible
context is still the white set at initialisation. -/
theorem clearCanvas_white (R : Renderer) (s : State) (h : Reachable R s)
    (hu : s.uploadedImage = none) :
    s.canvas.ctx.fillStyle = Pixel.white ∧
    ∃ t dc, clearCanvas R s = some t ∧ t.drawingCanvas = some dc ∧ dc.Blank ∧
      t.canvas.AllWhite ∧ t.uploadedImage = none := by
  have hr := reachable_ready R s h
  obtain ⟨dc, hdc, _⟩ := hr.strokes
  refine ⟨hr.fill, _, dc.clearRect 0 0 dc.width dc.height, clearCanvas_spec R s dc hdc,
    ?_, ?_, ?_, ?_⟩
  · rw [composite_drawingCanvas]
    rfl
  · exact clearRect_blank dc
  · exact composite_blank_white R _ (dc.clearRect 0 0 dc.width dc.height) hr.fill rfl
      (clearRect_blank dc) hu
  · rw [composite_uploadedImage]
    exact hu

theorem clearCanvas_white_witness :
    Reachable refRenderer (afterActions strokeDemo) ∧
    (afterActions strokeDemo).uploadedImage = none ∧
    ∃ t dc, clearCanvas refRenderer (afterActions strokeDemo) = some t ∧
      t.drawingCanvas = some dc ∧ dc.Blank ∧ t.canvas.AllWhite ∧ t.uploadedImage = none :=
  ⟨reachable_afterActions _ _ rfl, rfl,
    (clearCanvas_white refRenderer (afterActions strokeDemo)
      (reachable_afterActions _ _ rfl) rfl).2⟩

/-- C9: from a reachable state whose stroke canvas is blank, a completed
upload (with the composite effect of its render) followed by "Clear Uploaded
Image" (with the composite effect of its render) leaves no background and a
visible canvas whose every pixel is white and fully covering; when the state
has no background, "Clear Uploaded Image" alone ends with the same visible
canvas. -/
theorem upload_then_clear_restores (R : Renderer) (s : State) (h : Reachable R s)
    (dc : Canvas) (hdc : s.drawingCanvas = some dc) (hb : dc.Blank) (image : Image) :
    ∃ t1 t2, dispatch R s (Event.imageLoad image) = some t1 ∧
      t1.uploadedImage = some image ∧
      dispatch R t1 Event.clickClearUploadedImage = some t2 ∧
      t2.uploadedImage = none ∧ t2.canvas.AllWhite ∧
      (s.uploadedImage = none →
        ∃ t3, dispatch R s Event.clickClearUploadedImage = some t3 ∧
          t3.uploadedImage = none ∧ t3.canvas = t2.canvas) := by
  have hr := reachable_ready R s h
  -- the state after the upload and its render
  have hdue1 : effectDue (setUploadedImage s (some image)) = true := rfl
  have e1 : commit R (setUploadedImage s (some image))
      = composite R (applyQueued (setUploadedImage s (some image))) := commit_due R _ hdue1
  have ht1u : (commit R (setUploadedImage s (some image))).uploadedImage = some image := by
    rw [commit_uploadedImage]
    rfl
  have ht1d : (commit R (setUploadedImage s (some image))).drawingCanvas = some dc := by
    rw [commit_drawingCanvas]
    exact hdc
  have ht1w : (commit R (setUploadedImage s (some image))).canvas.width = s.canvas.width := by
    rw [e1, composite_width]
    rfl
  have ht1h : (commit R (setUploadedImage s (some image))).canvas.height
      = s.canvas.height := by
    rw [e1, composite_height]
    rfl
  have ht1c : (commit R (setUploadedImage s (some image))).canvas.ctx = s.canvas.ctx := by
    rw [e1, composite_ctx]
    rfl
  have ht1o : ∀ i j, ¬ (i < s.canvas.width ∧ j < s.canvas.height) →
      (commit R (setUploadedImage s (some image))).canvas.px i j = s.canvas.px i j := by
    intro i j hin
    rw [e1]
    exact composite_px_outside R (applyQueued (setUploadedImage s (some image))) i j hin
  -- the handler on that state, and its render
  have e2 : clearUploadedImage R (commit R (setUploadedImage s (some image)))
      = setUploadedImage (clearCompositeCanvas
          { commit R (setUploadedImage s (some image)) with fileInputValue := "" }) none :=
    clearUploadedImage_present R _ image ht1u
  have hdue2 : effectDue (setUploadedImage (clearCompositeCanvas
      { commit R (setUploadedImage s (some image)) with fileInputValue := "" }) none)
      = true := by
    show (commit R (setUploadedImage s (some image))).uploadedImage.isSome = true
    rw [ht1u]
    rfl
  have hw2 : s.canvas.WhiteOver (commit R (clearUploadedImage R
      (commit R (setUploadedImage s (some image))))).canvas := by
    rw [e2, commit_due R _ hdue2]
    refine composite_whiteOver R _ dc s.canvas ?_ ht1d hb rfl ht1w ht1h ht1c ?_
    · show (commit R (setUploadedImage s (some image))).canvas.ctx.fillStyle = Pixel.white
      rw [ht1c]
      exact hr.fill
    · intro i j hin
      have hin1 : ¬ (i < (commit R (setUploadedImage s (some image))).canvas.width ∧
          j < (commit R (setUploadedImage s (some image))).canvas.height) := by
        rw [ht1w, ht1h]
        exact hin
      have b2 := clearCompositeCanvas_px_outside
        { commit R (setUploadedImage s (some image)) with fileInputValue := "" } i j hin1
      exact b2.trans (ht1o i j hin)
  refine ⟨commit R (setUploadedImage s (some image)),
    commit R (clearUploadedImage R (commit R (setUploadedImage s (some image)))),
    rfl, ht1u, rfl, ?_, hw2.2.2.2.1, ?_⟩
  · rw [commit_uploadedImage, e2]
    rfl
  · intro hu
    have e3 : clearUploadedImage R s = setUploadedImage (composite R (clearCompositeCanvas
        { s with fileInputValue := "" })) none := clearUploadedImage_absent R s hu
    have hdue3 : effectDue (setUploadedImage (composite R (clearCompositeCanvas
        { s with fileInputValue := "" })) none) = false := by
      show (composite R (clearCompositeCanvas
        { s with fileInputValue := "" })).uploadedImage.isSome = false
      rw [composite_uploadedImage]
      show s.uploadedImage.isSome = false
      rw [hu]
      rfl
    refine ⟨commit R (clearUploadedImage R s), rfl, ?_, ?_⟩
    · rw [commit_uploadedImage, e3]
      rfl
    · have hw3 : s.canvas.WhiteOver (commit R (clearUploadedImage R s)).canvas := by
        rw [e3, commit_idle R _ hdue3]
        show s.canvas.WhiteOver (composite R (clearCompositeCanvas
          { s with fileInputValue := "" })).canvas
        refine composite_whiteOver R _ dc s.canvas hr.fill hdc hb hu rfl rfl rfl ?_
        intro i j hin
        exact clearCompositeCanvas_px_outside { s with fileInputValue := "" } i j hin
      exact whiteOver_unique s.canvas _ _ hw3 hw2

theorem upload_then_clear_restores_witness :
    Reachable refRenderer (mount refRenderer) ∧ (Canvas.create 512 512).Blank ∧
    ∃ t1 t2, dispatch refRenderer (mount refRenderer) (Event.imageLoad sampleImage) = some t1 ∧
      t1.uploadedImage = some sampleImage ∧
      dispatch refRenderer t1 Event.clickClearUploadedImage = some t2 ∧
      t2.uploadedImage = none ∧ t2.canvas.AllWhite ∧
      ((mount refRenderer).uploadedImage = none →
        ∃ t3, dispatch refRenderer (mount refRenderer) Event.clickClearUploadedImage = some t3 ∧
          t3.uploadedImage = none ∧ t3.canvas = t2.canvas) :=
  ⟨Reachable.mount, fun _ _ _ _ => rfl,
    upload_then_clear_restores refRenderer (mount refRenderer) Reachable.mount
      (Canvas.create 512 512) rfl (fun _ _ _ _ => rfl) sampleImage⟩

/-- C10 as stated fails: after a pointer down and one pointer move on the
mounted component, `lineJoin` of the stroke context is `miter`, not `round`. -/
theorem lineJoin_not_round :
    ∃ t dc, run refRenderer (mount refRenderer)
        [Event.mouseDown ⟨0, 0⟩ ⟨10, 10⟩, Event.mouseMove ⟨0, 0⟩ ⟨50, 50⟩] = some t ∧
      t.drawingCanvas = some dc ∧ dc.ctx.lineCap = LineCap.round ∧
      dc.ctx.lineJoin = LineJoin.miter ∧ dc.ctx.lineJoin ≠ LineJoin.round :=
  ⟨_, _, rfl, rfl, rfl, rfl, by decide⟩

/-- C10, amended: in every reachable state with an active session, `draw`
succeeds and leaves the stroke context with the current colour as
`strokeStyle`, the current brush size as `lineWidth` and `round` as `lineCap`;
`lineJoin` is not assigned and is still the default `miter`. -/
theorem draw_sets_stroke_style (R : Renderer) (s : State) (h : Reachable R s)
    (hd : s.isDrawing = true) (rect : DOMRect) (e : MouseEvent) :
    ∃ t dc, draw R s rect e = some t ∧ t.drawingCanvas = some dc ∧
      dc.ctx.strokeStyle = s.color.toPixel ∧ dc.ctx.lineWidth = s.brushSize ∧
      dc.ctx.lineCap = LineCap.round ∧ dc.ctx.lineJoin = LineJoin.miter := by
  have hr := reachable_ready R s h
  obtain ⟨dc, hdc, _, _, hj⟩ := hr.strokes
  obtain ⟨_, _, h3, h4, h5, h6⟩ := stroked_frame R dc (e.clientX - rect.left)
    (e.clientY - rect.top) s.color.toPixel s.brushSize
  refine ⟨_, _, draw_spec R s rect e dc hdc hd, ?_, h5, h6 hr.brush, h4, h3.trans hj⟩
  rw [composite_drawingCanvas]

theorem draw_sets_stroke_style_witness :
    Reachable refRenderer (afterActions penDownDemo) ∧
    (afterActions penDownDemo).isDrawing = true ∧
    ∃ t dc, draw refRenderer (afterActions penDownDemo) ⟨0, 0⟩ ⟨50, 50⟩ = some t ∧
      t.drawingCanvas = some dc ∧
      dc.ctx.strokeStyle = (afterActions penDownDemo).color.toPixel ∧
      dc.ctx.lineWidth = (afterActions penDownDemo).brushSize ∧
      dc.ctx.lineCap = LineCap.round ∧ dc.ctx.lineJoin = LineJoin.miter :=
  ⟨reachable_afterActions _ _ rfl, rfl,
    draw_sets_stroke_style refRenderer (afterActions penDownDemo)
      (reachable_afterActions _ _ rfl) rfl ⟨0, 0⟩ ⟨50, 50⟩⟩

end LilFast
